import Mathlib

/-!
Verification of the furniture-layout post-processing core of this repository.

The definitions below are a shallow embedding, into Lean, of the TypeScript
functions in `src/mastra/workflows/decoration-workflow.ts` and
`src/mastra/tools/furniture-tool.ts`.  JavaScript numbers are modelled as
rationals (`ℚ`); JavaScript strings as Lean `String`s, with character-level
helpers (`lowerChar`, `includesFrom`, ...) mirroring `toLowerCase`,
`String.prototype.includes` and the suffix-stripping regular expressions of
the source.  Arrays are Lean lists; in-place mutation of array elements is
rendered as functional update (`List.set`); `Array.prototype.sort` (stable in
modern JavaScript engines) is rendered as `List.insertionSort`, which inserts
earlier elements before later ones with an equal key and is therefore stable
in the same sense.
-/

/-- Room dimensions in feet (`room.dimensions` in the source). -/
structure RoomDims where
  width : ℚ
  length : ℚ
deriving DecidableEq

/-- One catalog furniture item.  `dimL`, `dimW`, `dimH` are `dimensions[0]`,
`dimensions[1]`, `dimensions[2]` of the source (length, width, height). -/
structure Furniture where
  id : String
  name : String
  category_id : String
  dimL : ℚ
  dimW : ℚ
  dimH : ℚ
deriving DecidableEq

/-- One arrangement entry: a placement of a furniture item by id at a
center position, as produced by the proposer or the fallback planner.
The free-text rationale string of the source is not modelled; the claims
under verification are about coordinates and ordering only. -/
structure Placement where
  furnitureId : String
  x : ℚ
  y : ℚ
  rotation : ℚ
deriving DecidableEq

/-- Classification result of `classifyFurniture`
(`decoration-workflow.ts` lines 6-20). -/
structure Classification where
  category : String
  priority : ℕ
  wallDistance : ℚ
  area : ℚ
deriving DecidableEq

/-- Embedding of `classifyFurniture` (`decoration-workflow.ts` lines 6-20):
size-based classification with strict threshold tests, first match wins. -/
def classifyFurniture (f : Furniture) : Classification :=
  if f.dimL > 5 ∨ f.dimW > 3 ∨ f.dimL * f.dimW > 15 then
    ⟨"large", 1, 0, f.dimL * f.dimW⟩
  else if f.dimL * f.dimW > 6 ∨ (f.dimL > 2 ∧ f.dimW > 3/2) then
    ⟨"medium", 2, 0, f.dimL * f.dimW⟩
  else if f.dimL * f.dimW > 2 then
    ⟨"small", 3, 0, f.dimL * f.dimW⟩
  else
    ⟨"accent", 4, 1, f.dimL * f.dimW⟩

/-- A footprint prepared for the layering engine: the visualization item
built at `furniture-tool.ts` lines 2452-2461 (and the analogous map in the
workflow file): center position, rotation-adjusted width and length. -/
structure VisItem where
  id : String
  x : ℚ
  y : ℚ
  width : ℚ
  length : ℚ
  rotation : ℚ
deriving DecidableEq

/-- Embedding of `detectOverlap` (`decoration-workflow.ts` lines 23-40 and
the identical local copy at `furniture-tool.ts` lines 2318-2333): two
axis-aligned center-based rectangles overlap unless they are disjoint on
some axis, with touching edges (`<=`) counted as non-overlapping. -/
def detectOverlap (item1 item2 : VisItem) : Bool :=
  !(decide (item1.x + item1.width / 2 ≤ item2.x - item2.width / 2) ||
    decide (item2.x + item2.width / 2 ≤ item1.x - item1.width / 2) ||
    decide (item1.y + item1.length / 2 ≤ item2.y - item2.length / 2) ||
    decide (item2.y + item2.length / 2 ≤ item1.y - item1.length / 2))

/-- Embedding of `calculateFurnitureArea` (`decoration-workflow.ts`
lines 42-44). -/
def calculateFurnitureArea (item : VisItem) : ℚ :=
  item.width * item.length

/-- Embedding of `calculateSpaceUtilization` (`furniture-tool.ts` lines
1560-1568).  The source accumulates the constant `4` per arrangement entry
(its own comment reads `Placeholder - should calculate actual furniture
area`) and divides by the room floor area. -/
def calculateSpaceUtilization (arrangement : List Placement) (roomDimensions : RoomDims) : ℚ :=
  (arrangement.foldl (fun sum _ => sum + 4) 0) / (roomDimensions.width * roomDimensions.length)

/-- Total footprint area of an arrangement resolved against the catalog:
what the specification says `spaceUtilization` should be built from.
Modelled from the spec: space utilization is the sum of placed furniture
footprint areas (width times length per item) divided by the room floor
area; the code at `furniture-tool.ts` lines 1560-1568 does not compute
this. -/
def specFootprintUtilization (items : List (ℚ × ℚ)) (roomDimensions : RoomDims) : ℚ :=
  (items.foldl (fun sum wl => sum + wl.1 * wl.2) 0) / (roomDimensions.width * roomDimensions.length)

/-- Helper: the accumulator of `calculateSpaceUtilization` adds 4 per entry. -/
theorem spaceUtil_foldl (arrangement : List Placement) (init : ℚ) :
    arrangement.foldl (fun sum _ => sum + 4) init = init + 4 * arrangement.length := by
  induction arrangement generalizing init with
  | nil => simp
  | cons a l ih => simp [List.foldl_cons, ih]; ring

/-- Claim C1 (code_bug): the value returned by `calculateSpaceUtilization`
is `4 * (number of entries) / roomArea`, independent of the furniture
dimensions; it is not the total footprint area over the room area.  At the
failing input (a single 8 by 10 rug in a 10 by 12 room) the code yields
1/30 while the documented quantity is 80/120 = 2/3. -/
theorem C1_space_utilization_is_placeholder :
    (∀ (arrangement : List Placement) (room : RoomDims),
      calculateSpaceUtilization arrangement room =
        4 * arrangement.length / (room.width * room.length)) ∧
    calculateSpaceUtilization [⟨"rug-1", 5, 6, 0⟩] ⟨10, 12⟩ = 1 / 30 ∧
    specFootprintUtilization [(8, 10)] ⟨10, 12⟩ = 2 / 3 ∧
    (1 : ℚ) / 30 ≠ 2 / 3 := by
  refine ⟨fun arrangement room => ?_, ?_, ?_, by norm_num⟩
  · unfold calculateSpaceUtilization
    rw [spaceUtil_foldl]
    norm_num
  · unfold calculateSpaceUtilization
    norm_num
  · unfold specFootprintUtilization
    norm_num

/-- Claim C1 witness: the general formula evaluated at a concrete
arrangement of two placements in a 10 by 12 room gives 8/120 = 1/15. -/
theorem C1_space_utilization_is_placeholder_witness :
    calculateSpaceUtilization [⟨"a", 1, 1, 0⟩, ⟨"b", 2, 2, 0⟩] ⟨10, 12⟩ =
      4 * ([⟨"a", 1, 1, 0⟩, ⟨"b", 2, 2, 0⟩] : List Placement).length / ((10 : ℚ) * 12) :=
  C1_space_utilization_is_placeholder.1 [⟨"a", 1, 1, 0⟩, ⟨"b", 2, 2, 0⟩] ⟨10, 12⟩

/-- Claim C3 counterexample: the boundary footprint with length exactly 5
and width 3 (area exactly 15) is classified `medium` with priority 2, not
`large` with priority 1 as the claim states: every test of the first rule
is strict, so the boundary values fail it. -/
theorem C3_boundary_counterexample :
    classifyFurniture ⟨"f", "Boundary Dresser", "dresser", 5, 3, 2⟩ =
      ⟨"medium", 2, 0, 15⟩ ∧
    classifyFurniture ⟨"f", "Boundary Dresser", "dresser", 5, 3, 2⟩ ≠
      ⟨"large", 1, 0, 15⟩ := by
  constructor
  · unfold classifyFurniture
    norm_num
  · unfold classifyFurniture
    norm_num

/-- Claim C3 (corrected): `classifyFurniture` is a pure total function of
the (length, width) footprint - the id, name, category and height fields do
not influence the result - and boundary footprints (length exactly 5 with
width at most 3 and area at most 15, or area exactly 15 with length at most
5 and width at most 3) fail the strict tests of the `large` rule and
resolve to the next matching bucket; since the area 15 exceeds 6 they land
in `medium` with priority 2. -/
theorem C3_classifier_pure_and_boundary
    (i1 i2 n1 n2 c1 c2 : String) (l w h1 h2 : ℚ)
    (hl : l ≤ 5) (hw : w ≤ 3) (harea : l * w = 15) :
    (∀ (a1 a2 b1 b2 d1 d2 : String) (x y z1 z2 : ℚ),
      classifyFurniture ⟨a1, b1, d1, x, y, z1⟩ = classifyFurniture ⟨a2, b2, d2, x, y, z2⟩) ∧
    classifyFurniture ⟨i1, n1, c1, l, w, h1⟩ = ⟨"medium", 2, 0, 15⟩ ∧
    classifyFurniture ⟨i2, n2, c2, l, w, h2⟩ = ⟨"medium", 2, 0, 15⟩ := by
  refine ⟨fun a1 a2 b1 b2 d1 d2 x y z1 z2 => rfl, ?_, ?_⟩ <;>
  · unfold classifyFurniture
    rw [if_neg, if_pos]
    · simp [harea]
    · left; rw [harea]; norm_num
    · push_neg
      refine ⟨hl, hw, by rw [harea]⟩

/-- Claim C3 witness: the amended statement applied at the concrete
boundary footprint (5, 3); its hypotheses hold there. -/
theorem C3_classifier_pure_and_boundary_witness :
    classifyFurniture ⟨"n1", "Boundary A", "cat", 5, 3, 2⟩ = ⟨"medium", 2, 0, 15⟩ :=
  (C3_classifier_pure_and_boundary "n1" "n2" "Boundary A" "Boundary B" "cat" "cat"
    5 3 2 4 (by norm_num) (by norm_num) (by norm_num)).2.1

/-- Claim C9 (confirmed): whenever the closed X projections or the closed Y
projections of two center-based rectangles are disjoint, `detectOverlap`
returns `false`; and `detectOverlap` of a rectangle with positive width and
length against itself returns `true`. -/
theorem C9_overlap_disjoint_and_refl :
    (∀ a b : VisItem,
      (a.x + a.width / 2 < b.x - b.width / 2 ∨ b.x + b.width / 2 < a.x - a.width / 2 ∨
       a.y + a.length / 2 < b.y - b.length / 2 ∨ b.y + b.length / 2 < a.y - a.length / 2) →
      detectOverlap a b = false) ∧
    (∀ a : VisItem, 0 < a.width → 0 < a.length → detectOverlap a a = true) := by
  constructor
  · intro a b h
    unfold detectOverlap
    rcases h with h | h | h | h <;> simp [le_of_lt h]
  · intro a hw hl
    unfold detectOverlap
    simp
    exact ⟨by linarith, by linarith⟩

/-- Claim C9 witness: two rectangles with disjoint X projections do not
overlap, and a concrete unit square overlaps itself. -/
theorem C9_overlap_disjoint_and_refl_witness :
    detectOverlap ⟨"a", 0, 0, 2, 2, 0⟩ ⟨"b", 10, 0, 2, 2, 0⟩ = false ∧
    detectOverlap ⟨"c", 5, 5, 1, 1, 0⟩ ⟨"c", 5, 5, 1, 1, 0⟩ = true :=
  ⟨C9_overlap_disjoint_and_refl.1 ⟨"a", 0, 0, 2, 2, 0⟩ ⟨"b", 10, 0, 2, 2, 0⟩ (by norm_num),
   C9_overlap_disjoint_and_refl.2 ⟨"c", 5, 5, 1, 1, 0⟩ (by norm_num) (by norm_num)⟩

/-- A layering-annotated footprint: the object built by `assignLayeringOrder`
(`decoration-workflow.ts` lines 48-53, `furniture-tool.ts` lines 2336-2341)
by spreading the input item and adding `originalIndex`, `area` and
`layerOrder` (rendered here as a nested record rather than a spread). -/
structure LayeredItem where
  item : VisItem
  originalIndex : ℕ
  area : ℚ
  layerOrder : ℤ
deriving DecidableEq

/-- The annotation map at the top of `assignLayeringOrder`: each input item
is tagged with its index, its area (`calculateFurnitureArea`) and the
initial `layerOrder` 0. -/
def withLayerInfo : List VisItem → ℕ → List LayeredItem
  | [], _ => []
  | it :: rest, i => ⟨it, i, calculateFurnitureArea it, 0⟩ :: withLayerInfo rest (i + 1)

/-- Overlap test between a seed item and the item stored at index `j`,
as used by the collection loop of `assignLayeringOrder`. -/
def overlapAt (items : List LayeredItem) (seed : LayeredItem) (j : ℕ) : Bool :=
  match items.get? j with
  | some o => detectOverlap seed.item o.item
  | none => false

/-- The inner loop of `assignLayeringOrder` (`decoration-workflow.ts` lines
64-71): collect every later, not yet processed index whose item overlaps
the seed item directly. -/
def collectOverlapping (items : List LayeredItem) (seed : LayeredItem)
    (processed rest : List ℕ) : List ℕ :=
  rest.filter (fun j => decide (j ∉ processed) && overlapAt items seed j)

/-- The outer loop of `assignLayeringOrder` (`decoration-workflow.ts` lines
58-81) rendered functionally: walk the index list in order, skip processed
indices, and for each remaining seed emit the single-hop overlap cluster
(seed first, then the collected later indices) while marking all of its
members processed. -/
def clustersAux (items : List LayeredItem) : List ℕ → List ℕ → List (List ℕ)
  | [], _ => []
  | i :: rest, processed =>
    if i ∈ processed then clustersAux items rest processed
    else
      match items.get? i with
      | none => clustersAux items rest processed
      | some seed =>
        (i :: collectOverlapping items seed processed rest) ::
          clustersAux items rest (processed ++ i :: collectOverlapping items seed processed rest)

/-- Comparator of the per-cluster sort (`(a, b) => b.area - a.area`):
`a` precedes `b` when `a`'s area is at least `b`'s (descending by area). -/
def areaGE (a b : LayeredItem) : Prop := b.area ≤ a.area

instance : DecidableRel areaGE := fun a b => inferInstanceAs (Decidable (b.area ≤ a.area))

instance : IsTotal LayeredItem areaGE := ⟨fun a b => le_total b.area a.area⟩

instance : IsTrans LayeredItem areaGE := ⟨fun _ _ _ h1 h2 => le_trans h2 h1⟩

/-- Comparator of the final sort (`(a, b) => a.layerOrder - b.layerOrder`):
ascending by layer order. -/
def layerLE (a b : LayeredItem) : Prop := a.layerOrder ≤ b.layerOrder

instance : DecidableRel layerLE := fun a b => inferInstanceAs (Decidable (a.layerOrder ≤ b.layerOrder))

instance : IsTotal LayeredItem layerLE := ⟨fun a b => le_total a.layerOrder b.layerOrder⟩

instance : IsTrans LayeredItem layerLE := ⟨fun _ _ _ h1 h2 => le_trans h1 h2⟩

/-- The annotated items stored at the indices of one cluster. -/
def clusterItems (items : List LayeredItem) (c : List ℕ) : List LayeredItem :=
  c.filterMap items.get?

/-- The layer assignment inside one cluster (`decoration-workflow.ts` lines
73-80): sort the cluster by area descending (stable) and give each member a
layer order equal to its position in the sorted cluster. -/
def rankPairs : List LayeredItem → ℕ → List (ℕ × ℤ)
  | [], _ => []
  | a :: rest, k => (a.originalIndex, (k : ℤ)) :: rankPairs rest (k + 1)

/-- Layer assignments contributed by one cluster. -/
def clusterAssignments (items : List LayeredItem) (c : List ℕ) : List (ℕ × ℤ) :=
  rankPairs (List.insertionSort areaGE (clusterItems items c)) 0

/-- Layer assignments of all clusters. -/
def layerAssignments (items : List LayeredItem) (clusters : List (List ℕ)) : List (ℕ × ℤ) :=
  (clusters.map (clusterAssignments items)).flatten

/-- Look up the layer assigned to an original index (each index is assigned
by exactly one cluster; unassigned indices keep the initial 0). -/
def layerOf (assigns : List (ℕ × ℤ)) (i : ℕ) : ℤ :=
  match assigns.find? (fun p => decide (p.1 = i)) with
  | some p => p.2
  | none => 0

/-- Replace the layer order of an annotated item. -/
def setLayer (a : LayeredItem) (k : ℤ) : LayeredItem :=
  ⟨a.item, a.originalIndex, a.area, k⟩

/-- The annotated input list of `assignLayeringOrder`. -/
def layeredBase (furniture : List VisItem) : List LayeredItem :=
  withLayerInfo furniture 0

/-- The single-hop overlap clusters of `assignLayeringOrder`. -/
def layerClusters (furniture : List VisItem) : List (List ℕ) :=
  clustersAux (layeredBase furniture) (List.range (layeredBase furniture).length) []

/-- The full layer-order table of `assignLayeringOrder`. -/
def layerTable (furniture : List VisItem) : List (ℕ × ℤ) :=
  layerAssignments (layeredBase furniture) (layerClusters furniture)

/-- Embedding of `assignLayeringOrder` (`decoration-workflow.ts` lines
46-85 and the identical local copy at `furniture-tool.ts` lines 2335-2368):
annotate, cluster, assign per-cluster descending-area ranks, then return
the whole list sorted by ascending layer order (stable). -/
def assignLayeringOrder (furniture : List VisItem) : List LayeredItem :=
  List.insertionSort layerLE
    ((layeredBase furniture).map
      (fun a => setLayer a (layerOf (layerTable furniture) a.originalIndex)))

/-- The annotation map preserves length. -/
theorem withLayerInfo_length : ∀ (l : List VisItem) (i0 : ℕ),
    (withLayerInfo l i0).length = l.length := by
  intro l
  induction l with
  | nil => intro i0; rfl
  | cons a rest ih => intro i0; simp [withLayerInfo, ih]

/-- Entry `k` of the annotated list is entry `k` of the input tagged with
index `i0 + k`, its area, and layer 0. -/
theorem withLayerInfo_get? : ∀ (l : List VisItem) (i0 k : ℕ),
    (withLayerInfo l i0).get? k =
      (l.get? k).map (fun it => ⟨it, i0 + k, calculateFurnitureArea it, 0⟩) := by
  intro l
  induction l with
  | nil => intro i0 k; simp [withLayerInfo]
  | cons a rest ih =>
    intro i0 k
    cases k with
    | zero => simp [withLayerInfo]
    | succ k =>
      simp only [withLayerInfo, List.get?_cons_succ, ih (i0 + 1) k]
      have : i0 + 1 + k = i0 + (k + 1) := by omega
      rw [this]

/-- Stripping the annotations recovers the input list. -/
theorem withLayerInfo_map_item : ∀ (l : List VisItem) (i0 : ℕ),
    (withLayerInfo l i0).map (fun a => a.item) = l := by
  intro l
  induction l with
  | nil => intro i0; rfl
  | cons a rest ih => intro i0; simp [withLayerInfo, ih]

/-- The original indices of the annotated list are consecutive. -/
theorem withLayerInfo_map_origIdx : ∀ (l : List VisItem) (i0 : ℕ),
    (withLayerInfo l i0).map (fun a => a.originalIndex) = List.range' i0 l.length := by
  intro l
  induction l with
  | nil => intro i0; rfl
  | cons a rest ih => intro i0; simp [withLayerInfo, ih, List.range'_succ]

/-- Reading the annotated base at index `i` yields the tag `i` itself, the
underlying input item, its area, and the initial layer 0. -/
theorem layeredBase_get? {l : List VisItem} {i : ℕ} {a : LayeredItem}
    (h : (layeredBase l).get? i = some a) :
    a.originalIndex = i ∧ l.get? i = some a.item ∧
    a.area = calculateFurnitureArea a.item ∧ a.layerOrder = 0 := by
  rw [layeredBase, withLayerInfo_get? l 0 i] at h
  cases hg : l.get? i with
  | none => rw [hg] at h; simp at h
  | some it =>
    rw [hg] at h
    simp at h
    subst h
    simp [hg]

/-- Members of a collected overlap group come from the candidate list, are
unprocessed, and were not the seed. -/
theorem mem_collectOverlapping {items : List LayeredItem} {seed : LayeredItem}
    {processed rest : List ℕ} {j : ℕ}
    (h : j ∈ collectOverlapping items seed processed rest) :
    j ∈ rest ∧ j ∉ processed := by
  rw [collectOverlapping, List.mem_filter] at h
  obtain ⟨h1, h2⟩ := h
  rw [Bool.and_eq_true, decide_eq_true_eq] at h2
  exact ⟨h1, h2.1⟩

/-- Structural invariants of the clustering loop: under a duplicate-free
index list, every emitted cluster is duplicate-free, draws its members from
the index list, avoids the processed set, and distinct clusters are
disjoint. -/
theorem clustersAux_strong (items : List LayeredItem) :
    ∀ (idxs processed : List ℕ), idxs.Nodup →
      (∀ c ∈ clustersAux items idxs processed,
        c.Nodup ∧ (∀ i ∈ c, i ∈ idxs) ∧ (∀ i ∈ c, i ∉ processed)) ∧
      List.Pairwise (fun c d => ∀ i ∈ c, i ∉ d) (clustersAux items idxs processed) := by
  intro idxs
  induction idxs with
  | nil =>
    intro processed _
    constructor
    · intro c hc; simp [clustersAux] at hc
    · simp [clustersAux]
  | cons i rest ih =>
    intro processed hnd
    have hndr : rest.Nodup := hnd.of_cons
    have hir : i ∉ rest := (List.nodup_cons.mp hnd).1
    by_cases hip : i ∈ processed
    · rw [clustersAux, if_pos hip]
      obtain ⟨h1, h2⟩ := ih processed hndr
      exact ⟨fun c hc => ⟨(h1 c hc).1, fun k hk => List.mem_cons_of_mem i ((h1 c hc).2.1 k hk),
              (h1 c hc).2.2⟩, h2⟩
    · rw [clustersAux, if_neg hip]
      cases hg : items.get? i with
      | none =>
        obtain ⟨h1, h2⟩ := ih processed hndr
        exact ⟨fun c hc => ⟨(h1 c hc).1, fun k hk => List.mem_cons_of_mem i ((h1 c hc).2.1 k hk),
                (h1 c hc).2.2⟩, h2⟩
      | some seed =>
        obtain ⟨h1, h2⟩ := ih (processed ++ i :: collectOverlapping items seed processed rest) hndr
        have hgrp : ∀ k ∈ i :: collectOverlapping items seed processed rest,
            k ∈ i :: rest ∧ k ∉ processed := by
          intro k hk
          rcases List.mem_cons.mp hk with hk | hk
          · subst hk; exact ⟨List.mem_cons_self _ _, hip⟩
          · obtain ⟨hk1, hk2⟩ := mem_collectOverlapping hk
            exact ⟨List.mem_cons_of_mem i hk1, hk2⟩
        have hgnd : (i :: collectOverlapping items seed processed rest).Nodup := by
          rw [List.nodup_cons]
          constructor
          · intro hmem
            exact hir (mem_collectOverlapping hmem).1
          · exact List.Nodup.filter _ hndr
        constructor
        · intro c hc
          rcases List.mem_cons.mp hc with hc | hc
          · subst hc
            exact ⟨hgnd, fun k hk => (hgrp k hk).1, fun k hk => (hgrp k hk).2⟩
          · refine ⟨(h1 c hc).1, fun k hk => List.mem_cons_of_mem i ((h1 c hc).2.1 k hk), ?_⟩
            intro k hk hkp
            exact (h1 c hc).2.2 k hk (List.mem_append_left _ hkp)
        · rw [List.pairwise_cons]
          constructor
          · intro c hc k hk hkc
            have := (h1 c hc).2.2 k hkc
            exact this (List.mem_append_right _ hk)
          · exact h2

/-- Invariants of the clusters actually used by `assignLayeringOrder`:
duplicate-free, in-range, pairwise disjoint. -/
theorem layerClusters_strong (l : List VisItem) :
    (∀ c ∈ layerClusters l, c.Nodup ∧ ∀ i ∈ c, i < (layeredBase l).length) ∧
    List.Pairwise (fun c d => ∀ i ∈ c, i ∉ d) (layerClusters l) := by
  obtain ⟨h1, h2⟩ := clustersAux_strong (layeredBase l)
      (List.range (layeredBase l).length) [] (List.nodup_range _)
  refine ⟨fun c hc => ⟨(h1 c hc).1, fun i hi => ?_⟩, h2⟩
  exact List.mem_range.mp ((h1 c hc).2.1 i hi)

/-- Membership in the item list of a cluster. -/
theorem mem_clusterItems {items : List LayeredItem} {c : List ℕ} {a : LayeredItem} :
    a ∈ clusterItems items c ↔ ∃ i ∈ c, items.get? i = some a :=
  List.mem_filterMap

/-- The original index of any member of a cluster's item list is a member
of the cluster. -/
theorem clusterItems_origIdx_mem {l : List VisItem} {c : List ℕ} {a : LayeredItem}
    (h : a ∈ clusterItems (layeredBase l) c) : a.originalIndex ∈ c := by
  obtain ⟨i, hi, hg⟩ := mem_clusterItems.mp h
  rw [(layeredBase_get? hg).1]
  exact hi

/-- A duplicate-free cluster yields duplicate-free original indices. -/
theorem clusterItems_origIdx_nodup (l : List VisItem) :
    ∀ c : List ℕ, c.Nodup →
      ((clusterItems (layeredBase l) c).map (fun a => a.originalIndex)).Nodup := by
  intro c
  induction c with
  | nil => intro _; simp [clusterItems]
  | cons i c ih =>
    intro hnd
    rw [clusterItems, List.filterMap_cons]
    cases hg : (layeredBase l).get? i with
    | none => exact ih hnd.of_cons
    | some a =>
      rw [List.map_cons, List.nodup_cons]
      refine ⟨?_, ih hnd.of_cons⟩
      intro hmem
      obtain ⟨b, hb, hEq⟩ := List.mem_map.mp hmem
      have hbc : b.originalIndex ∈ c := clusterItems_origIdx_mem hb
      rw [hEq, (layeredBase_get? hg).1] at hbc
      exact (List.nodup_cons.mp hnd).1 hbc

/-- The keys of the rank pairs of a list are its original indices. -/
theorem rankPairs_map_fst : ∀ (s : List LayeredItem) (k : ℕ),
    (rankPairs s k).map Prod.fst = s.map (fun a => a.originalIndex) := by
  intro s
  induction s with
  | nil => intro k; rfl
  | cons a rest ih => intro k; simp [rankPairs, ih]

/-- Every rank value is nonnegative. -/
theorem rankPairs_snd_nonneg : ∀ (s : List LayeredItem) (k : ℕ) (q : ℕ × ℤ),
    q ∈ rankPairs s k → 0 ≤ q.2 := by
  intro s
  induction s with
  | nil => intro k q hq; simp [rankPairs] at hq
  | cons a rest ih =>
    intro k q hq
    rcases List.mem_cons.mp hq with hq | hq
    · subst hq; exact Int.ofNat_nonneg k
    · exact ih (k + 1) q hq

/-- Looking up the original index of the element at position `p` of a list
with duplicate-free original indices yields exactly the rank `k + p`. -/
theorem rankPairs_find (s : List LayeredItem) :
    ∀ (k p : ℕ) (hp : p < s.length),
      (s.map (fun a => a.originalIndex)).Nodup →
      (rankPairs s k).find? (fun q => decide (q.1 = (s.get ⟨p, hp⟩).originalIndex)) =
        some ((s.get ⟨p, hp⟩).originalIndex, ((k + p : ℕ) : ℤ)) := by
  induction s with
  | nil => intro k p hp; simp at hp
  | cons a rest ih =>
    intro k p hp hnd
    cases p with
    | zero =>
      simp [rankPairs, List.find?]
    | succ p =>
      have hpl : p < rest.length := by simpa using hp
      have hkey : (rest.get ⟨p, hpl⟩).originalIndex ∈ rest.map (fun a => a.originalIndex) :=
        List.mem_map.mpr ⟨rest.get ⟨p, hpl⟩, List.get_mem rest p hpl, rfl⟩
      have hne : a.originalIndex ≠ (rest.get ⟨p, hpl⟩).originalIndex := by
        intro hEq
        exact (List.nodup_cons.mp (by simpa using hnd)).1 (hEq ▸ hkey)
      have hrec := ih (k + 1) p hpl (by simpa using (List.nodup_cons.mp (by simpa using hnd)).2)
      show List.find? _ ((a.originalIndex, (k : ℤ)) :: rankPairs rest (k + 1)) = _
      rw [List.find?_cons]
      have hget : (a :: rest).get ⟨p + 1, hp⟩ = rest.get ⟨p, hpl⟩ := rfl
      rw [hget]
      rw [decide_eq_false hne]
      rw [show k + (p + 1) = k + 1 + p by omega]
      exact hrec

/-- Shorthand for the sorted item list of one cluster. -/
def sortedCluster (items : List LayeredItem) (c : List ℕ) : List LayeredItem :=
  List.insertionSort areaGE (clusterItems items c)

/-- A populated member index of a cluster has an entry in that cluster's
assignment list. -/
theorem clusterAssignments_find_isSome {l : List VisItem} {c : List ℕ} {i : ℕ}
    {a : LayeredItem} (hi : i ∈ c) (hg : (layeredBase l).get? i = some a) :
    ∃ v, (clusterAssignments (layeredBase l) c).find? (fun q => decide (q.1 = i)) = some v := by
  have hmem : a ∈ clusterItems (layeredBase l) c := mem_clusterItems.mpr ⟨i, hi, hg⟩
  have hs : a ∈ sortedCluster (layeredBase l) c :=
    (List.perm_insertionSort areaGE _).mem_iff.mpr hmem
  have hkey : i ∈ (rankPairs (sortedCluster (layeredBase l) c) 0).map Prod.fst := by
    rw [rankPairs_map_fst]
    exact List.mem_map.mpr ⟨a, hs, (layeredBase_get? hg).1⟩
  obtain ⟨x, hx, hx1⟩ := List.mem_map.mp hkey
  have : ((clusterAssignments (layeredBase l) c).find? (fun q => decide (q.1 = i))).isSome := by
    rw [List.find?_isSome]
    exact ⟨x, hx, by rw [hx1]; exact decide_eq_true rfl⟩
  obtain ⟨v, hv⟩ := Option.isSome_iff_exists.mp this
  exact ⟨v, hv⟩

/-- A non-member index of a cluster has no entry in that cluster's
assignment list. -/
theorem clusterAssignments_find_none {l : List VisItem} {c : List ℕ} {i : ℕ}
    (hni : i ∉ c) :
    (clusterAssignments (layeredBase l) c).find? (fun q => decide (q.1 = i)) = none := by
  rw [List.find?_eq_none]
  intro x hx hpx
  rw [decide_eq_true_eq] at hpx
  have : x.1 ∈ (rankPairs (sortedCluster (layeredBase l) c) 0).map Prod.fst :=
    List.mem_map.mpr ⟨x, hx, rfl⟩
  rw [rankPairs_map_fst] at this
  obtain ⟨b, hb, hbe⟩ := List.mem_map.mp this
  have : b.originalIndex ∈ c :=
    clusterItems_origIdx_mem ((List.perm_insertionSort areaGE _).mem_iff.mp hb)
  rw [hbe, hpx] at this
  exact hni this

/-- With pairwise-disjoint clusters, the layer of a populated member index
of a cluster is determined by that cluster alone. -/
theorem layerOf_flatten {l : List VisItem} :
    ∀ (clusters : List (List ℕ)),
      List.Pairwise (fun c d => ∀ i ∈ c, i ∉ d) clusters →
      ∀ {c : List ℕ}, c ∈ clusters → ∀ {i : ℕ} {a : LayeredItem}, i ∈ c →
      (layeredBase l).get? i = some a →
      layerOf (layerAssignments (layeredBase l) clusters) i =
        layerOf (clusterAssignments (layeredBase l) c) i := by
  intro clusters
  induction clusters with
  | nil => intro _ c hc; cases hc
  | cons d cs ih =>
    intro hpair c hc i a hi hg
    rw [layerAssignments, List.map_cons, List.flatten_cons]
    rcases List.mem_cons.mp hc with hc | hc
    · subst hc
      obtain ⟨v, hv⟩ := clusterAssignments_find_isSome hi hg
      rw [layerOf, List.find?_append, hv, layerOf, hv]
      rfl
    · have hni : i ∉ d := by
        intro hid
        exact (List.pairwise_cons.mp hpair).1 c hc i hid hi
      rw [layerOf, List.find?_append, clusterAssignments_find_none hni]
      rw [Option.none_or]
      rw [← layerOf]
      exact ih (List.pairwise_cons.mp hpair).2 hc hi hg

/-- The layer assigned to a populated member of a duplicate-free cluster is
the position of its item in the cluster sorted by descending area. -/
theorem layerOf_cluster_rank {l : List VisItem} {c : List ℕ} (hcnd : c.Nodup)
    {i : ℕ} {a : LayeredItem} (hi : i ∈ c) (hg : (layeredBase l).get? i = some a) :
    ∃ (p : ℕ) (hp : p < (sortedCluster (layeredBase l) c).length),
      (sortedCluster (layeredBase l) c).get ⟨p, hp⟩ = a ∧
      layerOf (clusterAssignments (layeredBase l) c) i = (p : ℤ) := by
  have hmem : a ∈ clusterItems (layeredBase l) c := mem_clusterItems.mpr ⟨i, hi, hg⟩
  have hs : a ∈ sortedCluster (layeredBase l) c :=
    (List.perm_insertionSort areaGE _).mem_iff.mpr hmem
  obtain ⟨⟨p, hp⟩, hpa⟩ := List.mem_iff_get.mp hs
  have hnd : ((sortedCluster (layeredBase l) c).map (fun a => a.originalIndex)).Nodup := by
    have hperm := (List.perm_insertionSort areaGE (clusterItems (layeredBase l) c)).map
      (fun a => a.originalIndex)
    exact hperm.nodup_iff.mpr (clusterItems_origIdx_nodup l c hcnd)
  have hfind := rankPairs_find (sortedCluster (layeredBase l) c) 0 p hp hnd
  rw [hpa, (layeredBase_get? hg).1] at hfind
  refine ⟨p, hp, hpa, ?_⟩
  rw [clusterAssignments, layerOf]
  rw [show sortedCluster (layeredBase l) c = List.insertionSort areaGE (clusterItems (layeredBase l) c) from rfl] at hfind
  rw [hfind]
  norm_num

/-- Membership in a populated annotated base list is membership at the
tagged index. -/
theorem mem_layeredBase_get? {l : List VisItem} {b : LayeredItem}
    (hb : b ∈ layeredBase l) : (layeredBase l).get? b.originalIndex = some b := by
  obtain ⟨n, hn⟩ := List.get_of_mem hb
  have hg : (layeredBase l).get? n.1 = some b := by
    rw [List.get?_eq_some]
    exact ⟨n.2, hn⟩
  have := (layeredBase_get? hg).1
  rw [this]
  exact hg

/-- Every layer stored in the layer table is nonnegative. -/
theorem layerOf_table_nonneg (l : List VisItem) (i : ℕ) :
    0 ≤ layerOf (layerTable l) i := by
  rw [layerOf]
  cases hf : (layerTable l).find? (fun p => decide (p.1 = i)) with
  | none => exact le_refl 0
  | some v =>
    show (0 : ℤ) ≤ v.2
    have hv : v ∈ layerTable l := List.mem_of_find?_eq_some hf
    rw [layerTable, layerAssignments] at hv
    obtain ⟨part, hpart, hvp⟩ := List.mem_flatten.mp hv
    obtain ⟨c, _, hcp⟩ := List.mem_map.mp hpart
    rw [← hcp] at hvp
    exact rankPairs_snd_nonneg _ 0 v hvp

/-- Elements of the layering output are exactly the annotated inputs with
their layer looked up in the layer table. -/
theorem mem_assignLayeringOrder {l : List VisItem} {out : LayeredItem} :
    out ∈ assignLayeringOrder l ↔
      ∃ b ∈ layeredBase l, out = setLayer b (layerOf (layerTable l) b.originalIndex) := by
  rw [assignLayeringOrder]
  rw [(List.perm_insertionSort layerLE _).mem_iff]
  rw [List.mem_map]
  constructor
  · rintro ⟨b, hb, rfl⟩; exact ⟨b, hb, rfl⟩
  · rintro ⟨b, hb, rfl⟩; exact ⟨b, hb, rfl⟩

/-- Claim C10 (confirmed): `assignLayeringOrder` never moves or resizes
furniture.  Its output is a permutation of the annotated input items: the
underlying items (with their x, y, width, length and rotation) form a
permutation of the input list, the `originalIndex` annotations form a
permutation of the input index range (so each input item appears exactly
once, at its own recorded index), and each output carries only the extra
`area` (the recorded footprint area) and a nonnegative `layerOrder`. -/
theorem C10_layering_frame (l : List VisItem) :
    ((assignLayeringOrder l).map (fun a => a.item)).Perm l ∧
    ((assignLayeringOrder l).map (fun a => a.originalIndex)).Perm (List.range l.length) ∧
    ∀ out ∈ assignLayeringOrder l,
      l.get? out.originalIndex = some out.item ∧
      out.area = out.item.width * out.item.length ∧
      0 ≤ out.layerOrder := by
  have hperm : (assignLayeringOrder l).Perm
      ((layeredBase l).map (fun a => setLayer a (layerOf (layerTable l) a.originalIndex))) :=
    List.perm_insertionSort layerLE _
  refine ⟨?_, ?_, ?_⟩
  · have h1 : ((layeredBase l).map
        (fun a => setLayer a (layerOf (layerTable l) a.originalIndex))).map
        (fun a => a.item) = l := by
      rw [List.map_map]
      exact withLayerInfo_map_item l 0
    have := hperm.map (fun a => a.item)
    rw [h1] at this
    exact this
  · have h1 : ((layeredBase l).map
        (fun a => setLayer a (layerOf (layerTable l) a.originalIndex))).map
        (fun a => a.originalIndex) = List.range l.length := by
      rw [List.map_map]
      rw [List.range_eq_range']
      exact withLayerInfo_map_origIdx l 0
    have := hperm.map (fun a => a.originalIndex)
    rw [h1] at this
    exact this
  · intro out hout
    obtain ⟨b, hb, rfl⟩ := mem_assignLayeringOrder.mp hout
    obtain ⟨hidx, hget, harea, _⟩ := layeredBase_get? (mem_layeredBase_get? hb)
    refine ⟨hget, ?_, layerOf_table_nonneg l b.originalIndex⟩
    show b.area = b.item.width * b.item.length
    rw [harea]
    rfl

/-- Core of claim C5: inside one cluster, strictly larger area means a
strictly smaller assigned layer. -/
theorem layerOf_lt_of_area_lt {l : List VisItem} {c : List ℕ} {i j : ℕ}
    {a b : LayeredItem} (hc : c ∈ layerClusters l) (hi : i ∈ c) (hj : j ∈ c)
    (hga : (layeredBase l).get? i = some a) (hgb : (layeredBase l).get? j = some b)
    (hab : b.area < a.area) :
    layerOf (layerTable l) i < layerOf (layerTable l) j := by
  obtain ⟨h1, h2⟩ := layerClusters_strong l
  have hcnd : c.Nodup := (h1 c hc).1
  have hfi : layerOf (layerTable l) i = layerOf (clusterAssignments (layeredBase l) c) i :=
    layerOf_flatten (layerClusters l) h2 hc hi hga
  have hfj : layerOf (layerTable l) j = layerOf (clusterAssignments (layeredBase l) c) j :=
    layerOf_flatten (layerClusters l) h2 hc hj hgb
  obtain ⟨pa, hpa, hgetA, hLa⟩ := layerOf_cluster_rank hcnd hi hga
  obtain ⟨qb, hqb, hgetB, hLb⟩ := layerOf_cluster_rank hcnd hj hgb
  have hsorted : List.Sorted areaGE (sortedCluster (layeredBase l) c) :=
    List.sorted_insertionSort areaGE _
  have hlt : pa < qb := by
    rcases lt_trichotomy pa qb with h | h | h
    · exact h
    · exfalso
      have : a = b := by
        rw [← hgetA, ← hgetB]
        congr 1
        exact Fin.ext h
      rw [this] at hab
      exact lt_irrefl _ hab
    · exfalso
      have := List.pairwise_iff_get.mp hsorted ⟨qb, hqb⟩ ⟨pa, hpa⟩ h
      rw [hgetA, hgetB] at this
      exact absurd hab (not_lt.mpr this)
  rw [hfi, hfj, hLa, hLb]
  exact_mod_cast hlt

/-- Claim C5 (confirmed): within one overlap cluster of the LayeringEngine,
an item with strictly larger recorded area always receives a strictly
smaller `layerOrder` than a directly-overlapping item with smaller area;
and on the end-to-end scenario of an 8 by 10 rug with a 1 by 1 lamp fully
inside its bounds, `assignLayeringOrder` assigns the rug layer 0 and the
lamp layer 1 (and orders the rug first). -/
theorem C5_layering_area_order :
    (∀ (l : List VisItem) (c : List ℕ) (i j : ℕ) (a b p q : LayeredItem),
      c ∈ layerClusters l → i ∈ c → j ∈ c →
      (layeredBase l).get? i = some a → (layeredBase l).get? j = some b →
      detectOverlap a.item b.item = true → b.area < a.area →
      p ∈ assignLayeringOrder l → q ∈ assignLayeringOrder l →
      p.originalIndex = i → q.originalIndex = j →
      p.layerOrder < q.layerOrder) ∧
    assignLayeringOrder [⟨"rug", 5, 6, 8, 10, 0⟩, ⟨"lamp", 5, 6, 1, 1, 0⟩] =
      [⟨⟨"rug", 5, 6, 8, 10, 0⟩, 0, 80, 0⟩, ⟨⟨"lamp", 5, 6, 1, 1, 0⟩, 1, 1, 1⟩] := by
  constructor
  · intro l c i j a b p q hc hi hj hga hgb _ hab hp hq hpi hqj
    obtain ⟨bp, hbp, rfl⟩ := mem_assignLayeringOrder.mp hp
    obtain ⟨bq, hbq, rfl⟩ := mem_assignLayeringOrder.mp hq
    have hpi2 : bp.originalIndex = i := hpi
    have hqj2 : bq.originalIndex = j := hqj
    have hpla : (setLayer bp (layerOf (layerTable l) bp.originalIndex)).layerOrder =
        layerOf (layerTable l) i := by rw [← hpi2]; rfl
    have hqla : (setLayer bq (layerOf (layerTable l) bq.originalIndex)).layerOrder =
        layerOf (layerTable l) j := by rw [← hqj2]; rfl
    rw [hpla, hqla]
    exact layerOf_lt_of_area_lt hc hi hj hga hgb hab
  · norm_num [assignLayeringOrder, layeredBase, withLayerInfo, calculateFurnitureArea,
      layerTable, layerClusters, clustersAux, collectOverlapping, overlapAt, detectOverlap,
      layerAssignments, clusterAssignments, clusterItems, rankPairs, layerOf, setLayer,
      List.insertionSort, List.orderedInsert, areaGE, layerLE, List.range_succ]

/-- Claim C5 witness: the universal part of the claim applied to the
concrete rug and lamp scenario; the rug output (layer 0) is strictly below
the lamp output (layer 1). -/
theorem C5_layering_area_order_witness :
    LayeredItem.layerOrder ⟨⟨"rug", 5, 6, 8, 10, 0⟩, 0, 80, 0⟩ <
      LayeredItem.layerOrder ⟨⟨"lamp", 5, 6, 1, 1, 0⟩, 1, 1, 1⟩ := by
  have hconc := C5_layering_area_order.2
  refine C5_layering_area_order.1 [⟨"rug", 5, 6, 8, 10, 0⟩, ⟨"lamp", 5, 6, 1, 1, 0⟩]
    [0, 1] 0 1 ⟨⟨"rug", 5, 6, 8, 10, 0⟩, 0, 80, 0⟩ ⟨⟨"lamp", 5, 6, 1, 1, 0⟩, 1, 1, 0⟩
    ⟨⟨"rug", 5, 6, 8, 10, 0⟩, 0, 80, 0⟩ ⟨⟨"lamp", 5, 6, 1, 1, 0⟩, 1, 1, 1⟩
    ?_ ?_ ?_ ?_ ?_ ?_ ?_ ?_ ?_ rfl rfl
  · norm_num [layerClusters, layeredBase, withLayerInfo, calculateFurnitureArea,
      clustersAux, collectOverlapping, overlapAt, detectOverlap, List.range_succ]
  · norm_num
  · norm_num
  · norm_num [layeredBase, withLayerInfo, calculateFurnitureArea]
  · norm_num [layeredBase, withLayerInfo, calculateFurnitureArea]
  · norm_num [detectOverlap]
  · norm_num
  · rw [hconc]; norm_num
  · rw [hconc]; norm_num

/-- Claim C10 witness: the per-element clause of the frame theorem applied
to the rug entry of a concrete two-item layering run. -/
theorem C10_layering_frame_witness :
    ([⟨"rug", 5, 6, 8, 10, 0⟩, ⟨"lamp", 5, 6, 1, 1, 0⟩] : List VisItem).get?
        (⟨⟨"rug", 5, 6, 8, 10, 0⟩, 0, 80, 0⟩ : LayeredItem).originalIndex =
      some (⟨⟨"rug", 5, 6, 8, 10, 0⟩, 0, 80, 0⟩ : LayeredItem).item ∧
    (⟨⟨"rug", 5, 6, 8, 10, 0⟩, 0, 80, 0⟩ : LayeredItem).area =
      (⟨⟨"rug", 5, 6, 8, 10, 0⟩, 0, 80, 0⟩ : LayeredItem).item.width *
        (⟨⟨"rug", 5, 6, 8, 10, 0⟩, 0, 80, 0⟩ : LayeredItem).item.length ∧
    0 ≤ (⟨⟨"rug", 5, 6, 8, 10, 0⟩, 0, 80, 0⟩ : LayeredItem).layerOrder :=
  (C10_layering_frame [⟨"rug", 5, 6, 8, 10, 0⟩, ⟨"lamp", 5, 6, 1, 1, 0⟩]).2.2
    ⟨⟨"rug", 5, 6, 8, 10, 0⟩, 0, 80, 0⟩
    (by norm_num [assignLayeringOrder, layeredBase, withLayerInfo, calculateFurnitureArea,
      layerTable, layerClusters, clustersAux, collectOverlapping, overlapAt, detectOverlap,
      layerAssignments, clusterAssignments, clusterItems, rankPairs, layerOf, setLayer,
      List.insertionSort, List.orderedInsert, areaGE, layerLE, List.range_succ])

/-- ASCII lower-casing of one character, as JavaScript `toLowerCase` acts
on the ASCII names used by the source. -/
def lowerChar (c : Char) : Char :=
  if 'A' ≤ c ∧ c ≤ 'Z' then Char.ofNat (c.toNat + 32) else c

/-- Lower-cased character list of a string (`name.toLowerCase()`). -/
def lowerStr (s : String) : List Char :=
  s.data.map lowerChar

/-- Whether the first list is a prefix of the second. -/
def hasPrefixFrom : List Char → List Char → Bool
  | [], _ => true
  | _ :: _, [] => false
  | n :: ns, h :: hs => decide (n = h) && hasPrefixFrom ns hs

/-- Whether the needle occurs contiguously in the haystack
(`String.prototype.includes`). -/
def includesFrom (needle : List Char) : List Char → Bool
  | [] => hasPrefixFrom needle []
  | h :: hs => hasPrefixFrom needle (h :: hs) || includesFrom needle hs

/-- Case-insensitive containment test used throughout
`enforceSymmetricalArrangement`: lower-case the name, then test an
(already lower-case) substring. -/
def lowerIncludes (s : String) (sub : String) : Bool :=
  includesFrom sub.data (lowerStr s)

/-- Containment test on an already-extracted base-name key. -/
def keyIncludes (key : List Char) (sub : String) : Bool :=
  includesFrom sub.data (key.map lowerChar)

/-- Whitespace as matched by the `\s` of the suffix-stripping regular
expression (restricted to the ASCII whitespace that can occur in the
catalog names). -/
def isWs (c : Char) : Bool :=
  decide (c = ' ') || decide (c = '\t') || decide (c = '\n') || decide (c = '\r')

/-- Drop a leading whitespace run. -/
def dropWsL : List Char → List Char
  | [] => []
  | c :: cs => if isWs c then dropWsL cs else c :: cs

/-- If the first list is a prefix of the second, return the remainder. -/
def stripPre : List Char → List Char → Option (List Char)
  | [], hs => some hs
  | _ :: _, [] => none
  | n :: ns, h :: hs => if n = h then stripPre ns hs else none

/-- One alternative of the regular expression
`\s+(1|2|Left|Right|left|right)$` applied from the end of the name: the
name must end with the token preceded by at least one whitespace
character; the token and the whole whitespace run are removed. -/
def trySuffix (name tok : List Char) : Option (List Char) :=
  match stripPre tok.reverse name.reverse with
  | none => none
  | some [] => none
  | some (c :: cs) => if isWs c then some ((dropWsL (c :: cs)).reverse) else none

/-- Embedding of the base-name extraction
`furniture.name.replace(/\s+(1|2|Left|Right|left|right)$/, '')`
(`furniture-tool.ts` line 1987). -/
def baseNameOf (name : String) : List Char :=
  (((((trySuffix name.data "1".data).or (trySuffix name.data "2".data)).or
      (trySuffix name.data "Left".data)).or (trySuffix name.data "Right".data)).or
    ((trySuffix name.data "left".data).or (trySuffix name.data "right".data))).getD name.data

/-- Catalog lookup `selectedFurniture.find(f => f.id === item.furnitureId)`. -/
def findFurniture (sel : List Furniture) (fid : String) : Option Furniture :=
  sel.find? (fun f => decide (f.id = fid))

/-- The accent-chair / dining-chair exclusion of
`enforceSymmetricalArrangement` (`furniture-tool.ts` lines 1977-1983). -/
def isChairSkip (f : Furniture) : Bool :=
  lowerIncludes f.name "accent chair" || lowerIncludes f.name "dining chair" ||
  decide (f.category_id = "accent-chair") || decide (f.category_id = "dining-chair")

/-- The symmetry-eligibility test of `enforceSymmetricalArrangement`
(`furniture-tool.ts` lines 1970-1974): name contains `nightstand`,
`side table` or `table lamp` (case-insensitively), or the category is
`nightstand` or `side-table`.  Note that neither `end-table` nor
`floor-lamp` (nor their display names) is tested. -/
def shouldBeSymmetrical (f : Furniture) : Bool :=
  lowerIncludes f.name "nightstand" || lowerIncludes f.name "side table" ||
  lowerIncludes f.name "table lamp" ||
  decide (f.category_id = "nightstand") || decide (f.category_id = "side-table")

/-- An item enters the symmetry grouping iff it is not excluded as a chair
and passes the eligibility test. -/
def symEligible (f : Furniture) : Bool :=
  !(isChairSkip f) && shouldBeSymmetrical f

/-- Insertion-ordered multimap update mirroring the `furnitureGroups` map
(`furniture-tool.ts` lines 1988-1991). -/
def addToGroups (key : List Char) (i : ℕ) :
    List (List Char × List ℕ) → List (List Char × List ℕ)
  | [] => [(key, [i])]
  | (k, ms) :: rest =>
    if k = key then (k, ms ++ [i]) :: rest else (k, ms) :: addToGroups key i rest

/-- The grouping pass of `enforceSymmetricalArrangement`
(`furniture-tool.ts` lines 1962-1996), indices standing for the array
positions of the arrangement items. -/
def buildGroupsAux (sel : List Furniture) :
    List Placement → ℕ → List (List Char × List ℕ) → List (List Char × List ℕ)
  | [], _, gs => gs
  | p :: rest, i, gs =>
    match findFurniture sel p.furnitureId with
    | none => buildGroupsAux sel rest (i + 1) gs
    | some f =>
      if isChairSkip f then buildGroupsAux sel rest (i + 1) gs
      else if shouldBeSymmetrical f then
        buildGroupsAux sel rest (i + 1) (addToGroups (baseNameOf f.name) i gs)
      else buildGroupsAux sel rest (i + 1) gs

/-- The symmetry groups of an arrangement. -/
def buildGroups (sel : List Furniture) (arr : List Placement) :
    List (List Char × List ℕ) :=
  buildGroupsAux sel arr 0 []

/-- Bed test of `enforceSymmetricalArrangement` (`furniture-tool.ts` lines
1931-1934 and 2019-2022): category `bed-frame` or name containing `bed`. -/
def isBedFurniture (f : Furniture) : Bool :=
  decide (f.category_id = "bed-frame") || lowerIncludes f.name "bed"

/-- Whether an arrangement entry resolves to bed furniture. -/
def isBedPlacement (sel : List Furniture) (p : Placement) : Bool :=
  match findFurniture sel p.furnitureId with
  | some f => isBedFurniture f
  | none => false

/-- The `arrangement.find(...)` bed lookup. -/
def findBed (sel : List Furniture) (arr : List Placement) : Option Placement :=
  arr.find? (isBedPlacement sel)

/-- The preferred bed wall position computed at `furniture-tool.ts` lines
1943-1955.  The source computes it, logs it, and then explicitly keeps the
original AI coordinates (`NO OVERRIDE`, line 1958): this value is dead in
the source and is referenced by no other definition here. -/
def preferredBedPosition (room : RoomDims) (bedL bedW : ℚ) : ℚ × ℚ :=
  if room.length ≤ room.width then (room.width / 2, room.length - bedL / 2)
  else (bedW / 2, room.length / 2)

/-- The nightstand flush-wall coordinates computed at `furniture-tool.ts`
lines 2028-2032 before the early `return` at line 2036 discards them
(`NO OVERRIDE`).  Dead in the source; referenced by no other definition
here. -/
def nightstandFlushCoords (room : RoomDims) (nightstandWidth : ℚ) : ℚ × ℚ :=
  (nightstandWidth / 2, room.width - nightstandWidth / 2)

/-- In-place position update of one arrangement entry. -/
def setPos (arr : List Placement) (k : ℕ) (nx ny : ℚ) : List Placement :=
  match arr.get? k with
  | some p => arr.set k ⟨p.furnitureId, nx, ny, p.rotation⟩
  | none => arr

/-- The left/right assignment and coordinate rewrite applied to one
processed pair (`furniture-tool.ts` lines 2064-2071): whichever member
currently has the smaller `x` takes the left slot. -/
def applySym (arr : List Placement) (i j : ℕ) (leftX rightX symY : ℚ) : List Placement :=
  match arr.get? i, arr.get? j with
  | some item1, some item2 =>
    if item1.x < item2.x then setPos (setPos arr i leftX symY) j rightX symY
    else setPos (setPos arr j leftX symY) i rightX symY
  | _, _ => arr

/-- Processing of one symmetry group (`furniture-tool.ts` lines 1999-2079):
only groups of exactly two members are touched; nightstand-keyed groups
with a bed present return early with no change (the flush coordinates are
computed and discarded in the source); chair-keyed groups use the
conversation-area formula; all other groups use the generic formula with a
one-foot inward margin. -/
def processGroup (room : RoomDims) (sel : List Furniture) (arr : List Placement)
    (key : List Char) : List ℕ → List Placement
  | [i, j] =>
    match arr.get? i, arr.get? j with
    | some item1, some item2 =>
      match findFurniture sel item1.furnitureId, findFurniture sel item2.furnitureId with
      | some furniture1, some _furniture2 =>
        if keyIncludes key "nightstand" then
          match findBed sel arr with
          | some _ => arr
          | none =>
            applySym arr i j (furniture1.dimW / 2) (room.width - furniture1.dimW / 2)
              (room.length / 2)
        else if keyIncludes key "chair" then
          applySym arr i j (room.width * (1 / 4)) (room.width * (3 / 4))
            (min ((item1.y + item2.y) / 2) (room.length / 2 - 1))
        else
          applySym arr i j (furniture1.dimW / 2 + 1) (room.width - (furniture1.dimW / 2 + 1))
            (max (room.length / 2) ((item1.y + item2.y) / 2))
      | _, _ => arr
    | _, _ => arr
  | _ => arr

/-- Embedding of `enforceSymmetricalArrangement` (`furniture-tool.ts` lines
1926-2084): group the symmetry-eligible items by stripped base name, then
rewrite each group of exactly two in map-insertion order.  The bed block at
lines 1930-1960 computes `preferredBedPosition` and discards it, mutating
nothing, and is therefore a no-op here. -/
def enforceSymmetricalArrangement (arrangement : List Placement)
    (selectedFurniture : List Furniture) (room : RoomDims) : List Placement :=
  (buildGroups selectedFurniture arrangement).foldl
    (fun cur g => processGroup room selectedFurniture cur g.1 g.2) arrangement

/-- Updating one position leaves every other index unchanged. -/
theorem setPos_get?_ne {arr : List Placement} {m k : ℕ} {nx ny : ℚ} (h : m ≠ k) :
    (setPos arr m nx ny).get? k = arr.get? k := by
  rw [setPos]
  cases hg : arr.get? m with
  | none => rfl
  | some p => exact List.get?_set_ne _ _ h

/-- Updating a populated position stores the new coordinates and keeps the
id and rotation. -/
theorem setPos_get?_self {arr : List Placement} {m : ℕ} {p : Placement} {nx ny : ℚ}
    (h : arr.get? m = some p) :
    (setPos arr m nx ny).get? m = some ⟨p.furnitureId, nx, ny, p.rotation⟩ := by
  rw [setPos, h]
  exact List.get?_set_eq_of_lt _ (List.get?_eq_some.mp h).1

/-- Position updates do not change the sequence of furniture ids. -/
theorem setPos_map_id (arr : List Placement) (m : ℕ) (nx ny : ℚ) :
    (setPos arr m nx ny).map (fun p => p.furnitureId) =
      arr.map (fun p => p.furnitureId) := by
  rw [setPos]
  cases hg : arr.get? m with
  | none => rfl
  | some p =>
    rw [List.map_set]
    apply List.ext_get?
    intro n
    by_cases hn : m = n
    · subst hn
      rw [List.get?_set_eq_of_lt _ (by rw [List.length_map]; exact (List.get?_eq_some.mp hg).1)]
      rw [List.get?_map, hg]
      rfl
    · rw [List.get?_set_ne _ _ hn]

/-- The pair rewrite leaves indices outside the pair unchanged. -/
theorem applySym_get?_ne {arr : List Placement} {i j k : ℕ} {lX rX sY : ℚ}
    (hik : i ≠ k) (hjk : j ≠ k) :
    (applySym arr i j lX rX sY).get? k = arr.get? k := by
  rw [applySym]
  cases hi : arr.get? i with
  | none => rfl
  | some item1 =>
    cases hj : arr.get? j with
    | none => rfl
    | some item2 =>
      dsimp only
      by_cases hx : item1.x < item2.x
      · rw [if_pos hx, setPos_get?_ne hjk, setPos_get?_ne hik]
      · rw [if_neg hx, setPos_get?_ne hik, setPos_get?_ne hjk]

/-- The pair rewrite does not change the sequence of furniture ids. -/
theorem applySym_map_id (arr : List Placement) (i j : ℕ) (lX rX sY : ℚ) :
    (applySym arr i j lX rX sY).map (fun p => p.furnitureId) =
      arr.map (fun p => p.furnitureId) := by
  rw [applySym]
  cases hi : arr.get? i with
  | none => rfl
  | some item1 =>
    cases hj : arr.get? j with
    | none => rfl
    | some item2 =>
      dsimp only
      by_cases hx : item1.x < item2.x
      · rw [if_pos hx, setPos_map_id, setPos_map_id]
      · rw [if_neg hx, setPos_map_id, setPos_map_id]

/-- Group processing leaves indices outside the group unchanged. -/
theorem processGroup_get?_ne {room : RoomDims} {sel : List Furniture}
    {arr : List Placement} {key : List Char} {ms : List ℕ} {k : ℕ}
    (hk : k ∉ ms) :
    (processGroup room sel arr key ms).get? k = arr.get? k := by
  match ms with
  | [] => rfl
  | [i] => rfl
  | i :: j :: m :: rest => rfl
  | [i, j] =>
    have hik : i ≠ k := fun h => hk (h ▸ List.mem_cons_self i [j])
    have hjk : j ≠ k := fun h => hk (by rw [h]; exact List.mem_cons_of_mem i (List.mem_cons_self k []))
    rw [processGroup]
    cases arr.get? i with
    | none => rfl
    | some item1 =>
      cases arr.get? j with
      | none => rfl
      | some item2 =>
        dsimp only
        cases findFurniture sel item1.furnitureId with
        | none => rfl
        | some furniture1 =>
          cases findFurniture sel item2.furnitureId with
          | none => rfl
          | some f2 =>
            dsimp only
            by_cases h1 : keyIncludes key "nightstand" = true
            · rw [if_pos h1]
              cases findBed sel arr with
              | some b => rfl
              | none => exact applySym_get?_ne hik hjk
            · rw [if_neg h1]
              by_cases h2 : keyIncludes key "chair" = true
              · rw [if_pos h2]
                exact applySym_get?_ne hik hjk
              · rw [if_neg h2]
                exact applySym_get?_ne hik hjk

/-- Group processing does not change the sequence of furniture ids. -/
theorem processGroup_map_id (room : RoomDims) (sel : List Furniture)
    (arr : List Placement) (key : List Char) (ms : List ℕ) :
    (processGroup room sel arr key ms).map (fun p => p.furnitureId) =
      arr.map (fun p => p.furnitureId) := by
  match ms with
  | [] => rfl
  | [i] => rfl
  | i :: j :: m :: rest => rfl
  | [i, j] =>
    rw [processGroup]
    cases arr.get? i with
    | none => rfl
    | some item1 =>
      cases arr.get? j with
      | none => rfl
      | some item2 =>
        dsimp only
        cases findFurniture sel item1.furnitureId with
        | none => rfl
        | some furniture1 =>
          cases findFurniture sel item2.furnitureId with
          | none => rfl
          | some f2 =>
            dsimp only
            by_cases h1 : keyIncludes key "nightstand" = true
            · rw [if_pos h1]
              cases findBed sel arr with
              | some b => rfl
              | none => exact applySym_map_id ..
            · rw [if_neg h1]
              by_cases h2 : keyIncludes key "chair" = true
              · rw [if_pos h2]
                exact applySym_map_id ..
              · rw [if_neg h2]
                exact applySym_map_id ..

/-- Folding group processing over a list of groups leaves any index that
belongs to none of the groups unchanged. -/
theorem foldProcess_get?_ne {room : RoomDims} {sel : List Furniture} :
    ∀ (gs : List (List Char × List ℕ)) (cur : List Placement) (k : ℕ),
      (∀ g ∈ gs, k ∉ g.2) →
      (gs.foldl (fun cur g => processGroup room sel cur g.1 g.2) cur).get? k = cur.get? k := by
  intro gs
  induction gs with
  | nil => intro cur k _; rfl
  | cons g gs ih =>
    intro cur k hk
    rw [List.foldl_cons]
    rw [ih _ k (fun g2 hg2 => hk g2 (List.mem_cons_of_mem g hg2))]
    exact processGroup_get?_ne (hk g (List.mem_cons_self g gs))

/-- Folding group processing never changes the sequence of furniture ids. -/
theorem foldProcess_map_id {room : RoomDims} {sel : List Furniture} :
    ∀ (gs : List (List Char × List ℕ)) (cur : List Placement),
      (gs.foldl (fun cur g => processGroup room sel cur g.1 g.2) cur).map
          (fun p => p.furnitureId) =
        cur.map (fun p => p.furnitureId) := by
  intro gs
  induction gs with
  | nil => intro cur; rfl
  | cons g gs ih =>
    intro cur
    rw [List.foldl_cons, ih, processGroup_map_id]

/-- The bed search only looks at the sequence of furniture ids, so lists
with identical id sequences agree on whether a bed exists. -/
theorem findBed_isSome_of_map_id {sel : List Furniture} {l1 l2 : List Placement}
    (h : l1.map (fun p => p.furnitureId) = l2.map (fun p => p.furnitureId)) :
    (findBed sel l1).isSome = (findBed sel l2).isSome := by
  have key : ∀ l : List Placement, (findBed sel l).isSome = true ↔
      ∃ s ∈ l.map (fun p => p.furnitureId),
        (match findFurniture sel s with
          | some f => isBedFurniture f
          | none => false) = true := by
    intro l
    rw [findBed, List.find?_isSome]
    constructor
    · rintro ⟨p, hp, hbp⟩
      exact ⟨p.furnitureId, List.mem_map.mpr ⟨p, hp, rfl⟩, hbp⟩
    · rintro ⟨s, hs, hbs⟩
      obtain ⟨p, hp, rfl⟩ := List.mem_map.mp hs
      exact ⟨p, hp, hbs⟩
  cases h1 : (findBed sel l1).isSome with
  | true =>
    symm
    rw [key l2, ← h, ← key l1]
    exact h1
  | false =>
    symm
    rw [← Bool.not_eq_true] at h1 ⊢
    rw [key l2, ← h, ← key l1]
    exact h1

/-- All indices stored in a group list. -/
def allMems (gs : List (List Char × List ℕ)) : List ℕ :=
  (gs.map Prod.snd).flatten

/-- A member of a group is a member of the flattened index list. -/
theorem mem_allMems {gs : List (List Char × List ℕ)} {g : List Char × List ℕ} {k : ℕ}
    (hg : g ∈ gs) (hk : k ∈ g.2) : k ∈ allMems gs := by
  rw [allMems, List.mem_flatten]
  exact ⟨g.2, List.mem_map.mpr ⟨g, hg, rfl⟩, hk⟩

/-- Adding an index to the group map adds exactly that index to the
flattened members. -/
theorem addToGroups_allMems_perm (key : List Char) (i : ℕ) :
    ∀ gs : List (List Char × List ℕ),
      (allMems (addToGroups key i gs)).Perm (i :: allMems gs) := by
  intro gs
  induction gs with
  | nil => simp [addToGroups, allMems]
  | cons g gs ih =>
    obtain ⟨k0, ms0⟩ := g
    rw [addToGroups]
    by_cases hk : k0 = key
    · rw [if_pos hk]
      show ((ms0 ++ [i]) ++ (gs.map Prod.snd).flatten).Perm
        (i :: (ms0 ++ (gs.map Prod.snd).flatten))
      rw [List.append_assoc]
      exact List.perm_middle
    · rw [if_neg hk]
      show (ms0 ++ allMems (addToGroups key i gs)).Perm (i :: (ms0 ++ allMems gs))
      exact (List.Perm.append_left ms0 ih).trans List.perm_middle

/-- The provenance of one grouped index: its arrangement entry exists, its
furniture resolves, is symmetry-eligible, and its stripped base name is the
group key. -/
def groupProp (sel : List Furniture) (arrFull : List Placement)
    (key : List Char) (k : ℕ) : Prop :=
  ∃ p f, arrFull.get? k = some p ∧ findFurniture sel p.furnitureId = some f ∧
    symEligible f = true ∧ baseNameOf f.name = key

/-- Adding an index with its provenance preserves the provenance of every
group entry. -/
theorem addToGroups_prop {sel : List Furniture} {arrFull : List Placement}
    {key : List Char} {i : ℕ} :
    ∀ gs : List (List Char × List ℕ),
      (∀ g ∈ gs, ∀ k ∈ g.2, groupProp sel arrFull g.1 k) →
      groupProp sel arrFull key i →
      ∀ g ∈ addToGroups key i gs, ∀ k ∈ g.2, groupProp sel arrFull g.1 k := by
  intro gs
  induction gs with
  | nil =>
    intro _ hQ g hg k hk
    rw [addToGroups] at hg
    rcases List.mem_cons.mp hg with hg | hg
    · subst hg
      rcases List.mem_cons.mp hk with hk | hk
      · subst hk; exact hQ
      · cases hk
    · cases hg
  | cons g0 gs ih =>
    obtain ⟨k0, ms0⟩ := g0
    intro hgs hQ g hg k hk
    rw [addToGroups] at hg
    by_cases hkey : k0 = key
    · rw [if_pos hkey] at hg
      rcases List.mem_cons.mp hg with hg | hg
      · subst hg
        rcases List.mem_append.mp hk with hk | hk
        · exact hgs (k0, ms0) (List.mem_cons_self _ _) k hk
        · rcases List.mem_cons.mp hk with hk | hk
          · show groupProp sel arrFull k0 k
            rw [hkey, hk]
            exact hQ
          · cases hk
      · exact hgs g (List.mem_cons_of_mem _ hg) k hk
    · rw [if_neg hkey] at hg
      rcases List.mem_cons.mp hg with hg | hg
      · subst hg
        exact hgs (k0, ms0) (List.mem_cons_self _ _) k hk
      · exact ih (fun g2 hg2 => hgs g2 (List.mem_cons_of_mem _ hg2)) hQ g hg k hk

/-- Provenance of every index grouped by the grouping pass. -/
theorem buildGroupsAux_prop (sel : List Furniture) (arrFull : List Placement) :
    ∀ (ps : List Placement) (i : ℕ) (gs : List (List Char × List ℕ)),
      (∀ k, arrFull.get? (i + k) = ps.get? k) →
      (∀ g ∈ gs, ∀ k ∈ g.2, groupProp sel arrFull g.1 k) →
      ∀ g ∈ buildGroupsAux sel ps i gs, ∀ k ∈ g.2, groupProp sel arrFull g.1 k := by
  intro ps
  induction ps with
  | nil => intro i gs _ hgs; exact hgs
  | cons p rest ih =>
    intro i gs hsl hgs
    have hslr : ∀ k, arrFull.get? (i + 1 + k) = rest.get? k := by
      intro k
      have h2 := hsl (k + 1)
      rw [show i + (k + 1) = i + 1 + k by omega] at h2
      simpa using h2
    have hp : arrFull.get? i = some p := by
      have h0 := hsl 0
      simpa using h0
    rw [buildGroupsAux]
    cases hf : findFurniture sel p.furnitureId with
    | none => exact ih (i + 1) gs hslr hgs
    | some f =>
      dsimp only
      by_cases hcs : isChairSkip f = true
      · rw [if_pos hcs]
        exact ih (i + 1) gs hslr hgs
      · rw [if_neg hcs]
        by_cases hsb : shouldBeSymmetrical f = true
        · rw [if_pos hsb]
          refine ih (i + 1) _ hslr (addToGroups_prop gs hgs ?_)
          refine ⟨p, f, hp, hf, ?_, rfl⟩
          cases hval : isChairSkip f with
          | true => exact absurd hval hcs
          | false => simp [symEligible, hval, hsb]
        · rw [if_neg hsb]
          exact ih (i + 1) gs hslr hgs

/-- Grouped indices are duplicate-free across the whole group list. -/
theorem buildGroupsAux_nodup (sel : List Furniture) :
    ∀ (ps : List Placement) (i : ℕ) (gs : List (List Char × List ℕ)),
      (∀ k ∈ allMems gs, k < i) → (allMems gs).Nodup →
      (allMems (buildGroupsAux sel ps i gs)).Nodup := by
  intro ps
  induction ps with
  | nil => intro i gs _ hnd; exact hnd
  | cons p rest ih =>
    intro i gs hlt hnd
    have hlt1 : ∀ k ∈ allMems gs, k < i + 1 := fun k hk => Nat.lt_succ_of_lt (hlt k hk)
    rw [buildGroupsAux]
    cases hf : findFurniture sel p.furnitureId with
    | none => exact ih (i + 1) gs hlt1 hnd
    | some f =>
      dsimp only
      by_cases hcs : isChairSkip f = true
      · rw [if_pos hcs]
        exact ih (i + 1) gs hlt1 hnd
      · rw [if_neg hcs]
        by_cases hsb : shouldBeSymmetrical f = true
        · rw [if_pos hsb]
          apply ih (i + 1)
          · intro k hk
            have := (addToGroups_allMems_perm (baseNameOf f.name) i gs).mem_iff.mp hk
            rcases List.mem_cons.mp this with h | h
            · omega
            · exact Nat.lt_succ_of_lt (hlt k h)
          · rw [(addToGroups_allMems_perm (baseNameOf f.name) i gs).nodup_iff]
            rw [List.nodup_cons]
            exact ⟨fun hmem => lt_irrefl i (hlt i hmem), hnd⟩
        · rw [if_neg hsb]
          exact ih (i + 1) gs hlt1 hnd

/-- Provenance of every grouped index of an arrangement. -/
theorem buildGroups_prop {sel : List Furniture} {arr : List Placement} :
    ∀ g ∈ buildGroups sel arr, ∀ k ∈ g.2, groupProp sel arr g.1 k := by
  apply buildGroupsAux_prop sel arr arr 0 []
  · intro k; rw [Nat.zero_add]
  · intro g hg; cases hg

/-- The grouped indices of an arrangement are duplicate-free. -/
theorem buildGroups_nodup {sel : List Furniture} {arr : List Placement} :
    (allMems (buildGroups sel arr)).Nodup := by
  apply buildGroupsAux_nodup sel arr 0 []
  · intro k hk; cases hk
  · exact List.nodup_nil

/-- Decomposition of the symmetry pass around one group of exactly two:
the pair indices are distinct, and the final values at the pair indices are
the values produced by processing that group on an intermediate state that
still carries the original entries of the pair (and the original id
sequence). -/
theorem enforce_decompose {room : RoomDims} {sel : List Furniture} {arr : List Placement}
    {key : List Char} {i j : ℕ}
    (hg : (key, [i, j]) ∈ buildGroups sel arr) :
    i ≠ j ∧ ∃ cur : List Placement,
      cur.get? i = arr.get? i ∧ cur.get? j = arr.get? j ∧
      cur.map (fun p => p.furnitureId) = arr.map (fun p => p.furnitureId) ∧
      (enforceSymmetricalArrangement arr sel room).get? i =
        (processGroup room sel cur key [i, j]).get? i ∧
      (enforceSymmetricalArrangement arr sel room).get? j =
        (processGroup room sel cur key [i, j]).get? j := by
  obtain ⟨gs₁, gs₂, hsplit⟩ := List.mem_iff_append.mp hg
  have hnd := @buildGroups_nodup sel arr
  rw [hsplit] at hnd
  have hform : allMems (gs₁ ++ (key, [i, j]) :: gs₂) =
      allMems gs₁ ++ ([i, j] ++ allMems gs₂) := by
    rw [allMems, List.map_append, List.map_cons, List.flatten_append, List.flatten_cons]
    rfl
  rw [hform] at hnd
  obtain ⟨hnd1, hnd2, hdisj1⟩ := List.nodup_append.mp hnd
  obtain ⟨hndij, hnd3, hdisj2⟩ := List.nodup_append.mp hnd2
  have hij : i ≠ j := by
    intro h
    rw [List.nodup_cons] at hndij
    exact hndij.1 (h ▸ List.mem_cons_self j [])
  have hmem1 : ∀ k ∈ ([i, j] : List ℕ), ∀ g2 ∈ gs₁, k ∉ g2.2 := by
    intro k hk g2 hg2 hkg
    exact hdisj1 (mem_allMems hg2 hkg) (List.mem_append_left _ hk)
  have hmem2 : ∀ k ∈ ([i, j] : List ℕ), ∀ g2 ∈ gs₂, k ∉ g2.2 := by
    intro k hk g2 hg2 hkg
    exact hdisj2 hk (mem_allMems hg2 hkg)
  refine ⟨hij, gs₁.foldl (fun cur g => processGroup room sel cur g.1 g.2) arr, ?_, ?_, ?_, ?_, ?_⟩
  · exact foldProcess_get?_ne gs₁ arr i (hmem1 i (List.mem_cons_self _ _))
  · exact foldProcess_get?_ne gs₁ arr j (hmem1 j (by simp))
  · exact foldProcess_map_id gs₁ arr
  · rw [enforceSymmetricalArrangement, hsplit, List.foldl_append, List.foldl_cons]
    exact foldProcess_get?_ne gs₂ _ i (hmem2 i (List.mem_cons_self _ _))
  · rw [enforceSymmetricalArrangement, hsplit, List.foldl_append, List.foldl_cons]
    exact foldProcess_get?_ne gs₂ _ j (hmem2 j (by simp))

/-- A nightstand-keyed group is processed to an unconditional no-op as soon
as a bed placement exists: the early `return` at `furniture-tool.ts` line
2036 discards the computed flush coordinates. -/
theorem processGroup_nightstand_bed {room : RoomDims} {sel : List Furniture}
    {cur : List Placement} {key : List Char} {i j : ℕ}
    (hkey : keyIncludes key "nightstand" = true)
    (hbed : (findBed sel cur).isSome = true) :
    processGroup room sel cur key [i, j] = cur := by
  rw [processGroup]
  cases cur.get? i with
  | none => rfl
  | some item1 =>
    cases cur.get? j with
    | none => rfl
    | some item2 =>
      dsimp only
      cases findFurniture sel item1.furnitureId with
      | none => rfl
      | some f1 =>
        cases findFurniture sel item2.furnitureId with
        | none => rfl
        | some f2 =>
          dsimp only
          rw [if_pos hkey]
          obtain ⟨b, hb⟩ := Option.isSome_iff_exists.mp hbed
          rw [hb]

/-- Evaluation of the generic symmetrical rewrite on a group of two: the
pair member with the smaller current `x` receives the left slot
`itemWidth/2 + 1`, the other the right slot `room.width - itemWidth/2 - 1`,
and both receive `y = max(room center, current average)`; ids and
rotations are preserved.  `itemWidth` is the width of the first group
member's furniture. -/
theorem processGroup_generic {room : RoomDims} {sel : List Furniture}
    {cur : List Placement} {key : List Char} {i j : ℕ} {item1 item2 : Placement}
    {f1 f2 : Furniture}
    (hij : i ≠ j)
    (hi : cur.get? i = some item1) (hj : cur.get? j = some item2)
    (hf1 : findFurniture sel item1.furnitureId = some f1)
    (hf2 : findFurniture sel item2.furnitureId = some f2)
    (hk1 : keyIncludes key "nightstand" = false)
    (hk2 : keyIncludes key "chair" = false) :
    (item1.x < item2.x →
      (processGroup room sel cur key [i, j]).get? i =
        some ⟨item1.furnitureId, f1.dimW / 2 + 1,
          max (room.length / 2) ((item1.y + item2.y) / 2), item1.rotation⟩ ∧
      (processGroup room sel cur key [i, j]).get? j =
        some ⟨item2.furnitureId, room.width - (f1.dimW / 2 + 1),
          max (room.length / 2) ((item1.y + item2.y) / 2), item2.rotation⟩) ∧
    (¬ item1.x < item2.x →
      (processGroup room sel cur key [i, j]).get? j =
        some ⟨item2.furnitureId, f1.dimW / 2 + 1,
          max (room.length / 2) ((item1.y + item2.y) / 2), item2.rotation⟩ ∧
      (processGroup room sel cur key [i, j]).get? i =
        some ⟨item1.furnitureId, room.width - (f1.dimW / 2 + 1),
          max (room.length / 2) ((item1.y + item2.y) / 2), item1.rotation⟩) := by
  rw [processGroup, hi, hj]
  dsimp only
  rw [hf1, hf2]
  dsimp only
  rw [if_neg (by rw [hk1]; exact Bool.false_ne_true)]
  rw [if_neg (by rw [hk2]; exact Bool.false_ne_true)]
  rw [applySym, hi, hj]
  dsimp only
  constructor
  · intro hx
    rw [if_pos hx]
    constructor
    · rw [setPos_get?_ne hij.symm]
      exact setPos_get?_self hi
    · apply setPos_get?_self
      rw [setPos_get?_ne hij]
      exact hj
  · intro hx
    rw [if_neg hx]
    constructor
    · rw [setPos_get?_ne hij]
      exact setPos_get?_self hj
    · apply setPos_get?_self
      rw [setPos_get?_ne hij.symm]
      exact hi

/-- Claim C4 (confirmed): when the arrangement contains a bed placement
(category `bed-frame` or name containing `bed`, itself not symmetry
eligible) and a nightstand pair (a symmetry group of exactly two whose
stripped base name contains `nightstand`), `enforceSymmetricalArrangement`
returns the bed entry and both nightstand entries unchanged: the bed block
computes `preferredBedPosition` and never writes it, and the nightstand
branch computes `nightstandFlushCoords` and discards them through its early
return. -/
theorem C4_bed_and_nightstands_untouched
    (room : RoomDims) (sel : List Furniture) (arr : List Placement)
    (key : List Char) (i j k : ℕ) (pk : Placement) (fk : Furniture)
    (hg : (key, [i, j]) ∈ buildGroups sel arr)
    (hkey : keyIncludes key "nightstand" = true)
    (hbedk : arr.get? k = some pk)
    (hfk : findFurniture sel pk.furnitureId = some fk)
    (hbed : isBedFurniture fk = true)
    (hknosym : symEligible fk = false) :
    (enforceSymmetricalArrangement arr sel room).get? i = arr.get? i ∧
    (enforceSymmetricalArrangement arr sel room).get? j = arr.get? j ∧
    (enforceSymmetricalArrangement arr sel room).get? k = arr.get? k := by
  obtain ⟨hij, cur, hci, hcj, hcid, hei, hej⟩ := @enforce_decompose room sel arr key i j hg
  have hbedarr : (findBed sel arr).isSome = true := by
    rw [findBed, List.find?_isSome]
    refine ⟨pk, List.get?_mem hbedk, ?_⟩
    rw [isBedPlacement, hfk]
    exact hbed
  have hbedcur : (findBed sel cur).isSome = true := by
    rw [findBed_isSome_of_map_id hcid]
    exact hbedarr
  have hpg := @processGroup_nightstand_bed room sel cur key i j hkey hbedcur
  refine ⟨?_, ?_, ?_⟩
  · rw [hei, hpg, hci]
  · rw [hej, hpg, hcj]
  · rw [enforceSymmetricalArrangement]
    apply foldProcess_get?_ne
    intro g hgmem hkin
    obtain ⟨p, f, hp, hf, hel, _⟩ := buildGroups_prop g hgmem k hkin
    rw [hbedk] at hp
    injection hp with hp
    subst hp
    rw [hfk] at hf
    injection hf with hf
    subst hf
    rw [hel] at hknosym
    cases hknosym

/-- Claim C4 witness: a 12 by 10 room with a king bed and a nightstand
pair; the theorem applies with every hypothesis discharged concretely, so
all three entries survive the symmetry pass unchanged. -/
theorem C4_bed_and_nightstands_untouched_witness :
    (enforceSymmetricalArrangement
        [⟨"bed-1", 6, 7, 0⟩, ⟨"ns-1", 2, 3, 0⟩, ⟨"ns-2", 9, 3, 0⟩]
        [⟨"bed-1", "King Bed", "bed-frame", 7, 5, 2⟩,
         ⟨"ns-1", "Nightstand 1", "nightstand", 2, 1, 2⟩,
         ⟨"ns-2", "Nightstand 2", "nightstand", 2, 1, 2⟩] ⟨12, 10⟩).get? 1 =
      ([⟨"bed-1", 6, 7, 0⟩, ⟨"ns-1", 2, 3, 0⟩, ⟨"ns-2", 9, 3, 0⟩] : List Placement).get? 1 ∧
    (enforceSymmetricalArrangement
        [⟨"bed-1", 6, 7, 0⟩, ⟨"ns-1", 2, 3, 0⟩, ⟨"ns-2", 9, 3, 0⟩]
        [⟨"bed-1", "King Bed", "bed-frame", 7, 5, 2⟩,
         ⟨"ns-1", "Nightstand 1", "nightstand", 2, 1, 2⟩,
         ⟨"ns-2", "Nightstand 2", "nightstand", 2, 1, 2⟩] ⟨12, 10⟩).get? 2 =
      ([⟨"bed-1", 6, 7, 0⟩, ⟨"ns-1", 2, 3, 0⟩, ⟨"ns-2", 9, 3, 0⟩] : List Placement).get? 2 ∧
    (enforceSymmetricalArrangement
        [⟨"bed-1", 6, 7, 0⟩, ⟨"ns-1", 2, 3, 0⟩, ⟨"ns-2", 9, 3, 0⟩]
        [⟨"bed-1", "King Bed", "bed-frame", 7, 5, 2⟩,
         ⟨"ns-1", "Nightstand 1", "nightstand", 2, 1, 2⟩,
         ⟨"ns-2", "Nightstand 2", "nightstand", 2, 1, 2⟩] ⟨12, 10⟩).get? 0 =
      ([⟨"bed-1", 6, 7, 0⟩, ⟨"ns-1", 2, 3, 0⟩, ⟨"ns-2", 9, 3, 0⟩] : List Placement).get? 0 :=
  C4_bed_and_nightstands_untouched ⟨12, 10⟩
    [⟨"bed-1", "King Bed", "bed-frame", 7, 5, 2⟩,
     ⟨"ns-1", "Nightstand 1", "nightstand", 2, 1, 2⟩,
     ⟨"ns-2", "Nightstand 2", "nightstand", 2, 1, 2⟩]
    [⟨"bed-1", 6, 7, 0⟩, ⟨"ns-1", 2, 3, 0⟩, ⟨"ns-2", 9, 3, 0⟩]
    (String.data "Nightstand") 1 2 0 ⟨"bed-1", 6, 7, 0⟩
    ⟨"bed-1", "King Bed", "bed-frame", 7, 5, 2⟩
    (by decide) (by decide) rfl rfl (by decide) (by decide)

/-- Claim C6 counterexample: a pair of end tables (category `end-table`,
names `Oak End Table 1` and `Oak End Table 2`) is claimed by C6 to be
rewritten to X slots 2 and 8 with Y 6 in a 10 by 12 room, but the
eligibility test of the source matches neither the category `end-table`
nor any substring of these names, so the pass leaves both placements
exactly where they were: the claimed output never occurs. -/
theorem C6_end_table_counterexample :
    enforceSymmetricalArrangement [⟨"et-1", 3, 2, 0⟩, ⟨"et-2", 7, 2, 0⟩]
      [⟨"et-1", "Oak End Table 1", "end-table", 2, 2, 2⟩,
       ⟨"et-2", "Oak End Table 2", "end-table", 2, 2, 2⟩] ⟨10, 12⟩ =
      [⟨"et-1", 3, 2, 0⟩, ⟨"et-2", 7, 2, 0⟩] ∧
    (some (⟨"et-1", 3, 2, 0⟩ : Placement) ≠ some (⟨"et-1", 2, 6, 0⟩ : Placement)) := by
  constructor
  · rfl
  · intro h
    injection h with h
    have h3 : (3 : ℚ) = 2 := congrArg Placement.x h
    norm_num at h3

/-- Claim C6 (corrected): the eligibility test of the source matches only
the categories `nightstand` and `side-table` and the case-insensitive name
substrings `nightstand`, `side table` and `table lamp` (not `end-table`,
not `floor-lamp`); for a resulting group of exactly two whose stripped base
name contains neither `nightstand` nor `chair`, both placements are
rewritten to Y = max(room center Y, average of the pair's current Y) and to
X = itemWidth/2 + 1 and room.width - itemWidth/2 - 1 (itemWidth being the
first member's furniture width), the member with the smaller current X
taking the left slot - whichever member that is: when the first group
member has the smaller X it gets the left slot, and when it has the larger
(or equal) X the second member gets the left slot. -/
theorem C6_generic_pair_rewrite
    (room : RoomDims) (sel : List Furniture) (arr : List Placement)
    (key : List Char) (i j : ℕ) (item1 item2 : Placement) (f1 : Furniture)
    (hg : (key, [i, j]) ∈ buildGroups sel arr)
    (hk1 : keyIncludes key "nightstand" = false)
    (hk2 : keyIncludes key "chair" = false)
    (hi : arr.get? i = some item1) (hj : arr.get? j = some item2)
    (hf1 : findFurniture sel item1.furnitureId = some f1) :
    (item1.x < item2.x →
      (enforceSymmetricalArrangement arr sel room).get? i =
        some ⟨item1.furnitureId, f1.dimW / 2 + 1,
          max (room.length / 2) ((item1.y + item2.y) / 2), item1.rotation⟩ ∧
      (enforceSymmetricalArrangement arr sel room).get? j =
        some ⟨item2.furnitureId, room.width - (f1.dimW / 2 + 1),
          max (room.length / 2) ((item1.y + item2.y) / 2), item2.rotation⟩) ∧
    (¬ item1.x < item2.x →
      (enforceSymmetricalArrangement arr sel room).get? j =
        some ⟨item2.furnitureId, f1.dimW / 2 + 1,
          max (room.length / 2) ((item1.y + item2.y) / 2), item2.rotation⟩ ∧
      (enforceSymmetricalArrangement arr sel room).get? i =
        some ⟨item1.furnitureId, room.width - (f1.dimW / 2 + 1),
          max (room.length / 2) ((item1.y + item2.y) / 2), item1.rotation⟩) := by
  obtain ⟨hij, cur, hci, hcj, hcid, hei, hej⟩ := @enforce_decompose room sel arr key i j hg
  obtain ⟨p2, f2, hp2, hf2, _, _⟩ := buildGroups_prop _ hg j (by simp)
  rw [hj] at hp2
  injection hp2 with hp2
  subst hp2
  have hgen := @processGroup_generic room sel cur key i j item1 item2 f1 f2 hij
    (hci.trans hi) (hcj.trans hj) hf1 hf2 hk1 hk2
  constructor
  · intro hx
    exact ⟨hei.trans (hgen.1 hx).1, hej.trans (hgen.1 hx).2⟩
  · intro hx
    exact ⟨hej.trans (hgen.2 hx).1, hei.trans (hgen.2 hx).2⟩

/-- Claim C6 witness: the theorem applied to two side-table pairs in a
10 by 12 room.  In the first arrangement the first group member sits at
x = 3 and the second at x = 7, so the first member takes the left slot; in
the second arrangement the first member sits at x = 7 and the second at
x = 3, so it is the second member that takes the left slot - the smaller
current X wins in both orders. -/
theorem C6_generic_pair_rewrite_witness :
    ((enforceSymmetricalArrangement [⟨"st-1", 3, 2, 0⟩, ⟨"st-2", 7, 2, 0⟩]
        [⟨"st-1", "Side Table 1", "side-table", 2, 2, 2⟩,
         ⟨"st-2", "Side Table 2", "side-table", 2, 2, 2⟩] ⟨10, 12⟩).get? 0 =
      some ⟨"st-1", (2 : ℚ) / 2 + 1, max ((12 : ℚ) / 2) (((2 : ℚ) + 2) / 2), 0⟩ ∧
    (enforceSymmetricalArrangement [⟨"st-1", 3, 2, 0⟩, ⟨"st-2", 7, 2, 0⟩]
        [⟨"st-1", "Side Table 1", "side-table", 2, 2, 2⟩,
         ⟨"st-2", "Side Table 2", "side-table", 2, 2, 2⟩] ⟨10, 12⟩).get? 1 =
      some ⟨"st-2", (10 : ℚ) - ((2 : ℚ) / 2 + 1),
        max ((12 : ℚ) / 2) (((2 : ℚ) + 2) / 2), 0⟩) ∧
    ((enforceSymmetricalArrangement [⟨"st-1", 7, 2, 0⟩, ⟨"st-2", 3, 2, 0⟩]
        [⟨"st-1", "Side Table 1", "side-table", 2, 2, 2⟩,
         ⟨"st-2", "Side Table 2", "side-table", 2, 2, 2⟩] ⟨10, 12⟩).get? 1 =
      some ⟨"st-2", (2 : ℚ) / 2 + 1, max ((12 : ℚ) / 2) (((2 : ℚ) + 2) / 2), 0⟩ ∧
    (enforceSymmetricalArrangement [⟨"st-1", 7, 2, 0⟩, ⟨"st-2", 3, 2, 0⟩]
        [⟨"st-1", "Side Table 1", "side-table", 2, 2, 2⟩,
         ⟨"st-2", "Side Table 2", "side-table", 2, 2, 2⟩] ⟨10, 12⟩).get? 0 =
      some ⟨"st-1", (10 : ℚ) - ((2 : ℚ) / 2 + 1),
        max ((12 : ℚ) / 2) (((2 : ℚ) + 2) / 2), 0⟩) :=
  ⟨(C6_generic_pair_rewrite ⟨10, 12⟩
      [⟨"st-1", "Side Table 1", "side-table", 2, 2, 2⟩,
       ⟨"st-2", "Side Table 2", "side-table", 2, 2, 2⟩]
      [⟨"st-1", 3, 2, 0⟩, ⟨"st-2", 7, 2, 0⟩]
      (String.data "Side Table") 0 1 ⟨"st-1", 3, 2, 0⟩ ⟨"st-2", 7, 2, 0⟩
      ⟨"st-1", "Side Table 1", "side-table", 2, 2, 2⟩
      (by decide) (by decide) (by decide) rfl rfl rfl).1 (by norm_num),
   (C6_generic_pair_rewrite ⟨10, 12⟩
      [⟨"st-1", "Side Table 1", "side-table", 2, 2, 2⟩,
       ⟨"st-2", "Side Table 2", "side-table", 2, 2, 2⟩]
      [⟨"st-1", 7, 2, 0⟩, ⟨"st-2", 3, 2, 0⟩]
      (String.data "Side Table") 0 1 ⟨"st-1", 7, 2, 0⟩ ⟨"st-2", 3, 2, 0⟩
      ⟨"st-1", "Side Table 1", "side-table", 2, 2, 2⟩
      (by decide) (by decide) (by decide) rfl rfl rfl).2 (by norm_num)⟩

/-- One already-placed rectangle tracked by the fallback planner
(`placedFurniture`, `furniture-tool.ts` lines 1588-1594). -/
structure PlacedRect where
  id : String
  centerX : ℚ
  centerY : ℚ
  width : ℚ
  length : ℚ
deriving DecidableEq

/-- The center clamp of the fallback planner (`furniture-tool.ts` lines
1635-1636 and 1675-1676): `Math.max(lo, Math.min(v, hi))`. -/
def clampQ (lo hi v : ℚ) : ℚ :=
  max lo (min v hi)

/-- The collision test of the fallback planner (`furniture-tool.ts` lines
1646-1653): rectangle overlap against every previously placed item,
expanded by the fixed 0.25 ft minimum clearance on each axis, with strict
comparisons. -/
def hasCollision (placed : List PlacedRect) (x y w l : ℚ) : Bool :=
  placed.any (fun p =>
    decide (|x - p.centerX| < (w + p.width) / 2 + 1 / 4) &&
    decide (|y - p.centerY| < (l + p.length) / 2 + 1 / 4))

/-- One perturbation-and-reclamp step of the retry loop (`furniture-tool.ts`
lines 1660-1676), `a` being the incremented attempt counter: attempts 1-3
shift +2 in X, attempts 4-6 reset X and shift +2 in Y, the remaining
attempts move to the original bounded X minus 2 and shift +1 in Y; both
coordinates are re-clamped to the room bounds afterwards. -/
def retryStep (minCX maxCX minCY maxCY bX : ℚ) (a : ℕ) (x y : ℚ) : ℚ × ℚ :=
  if a ≤ 3 then
    (clampQ minCX maxCX (min (x + 2) maxCX), clampQ minCY maxCY y)
  else if a ≤ 6 then
    (clampQ minCX maxCX bX, clampQ minCY maxCY (min (y + 2) maxCY))
  else
    (clampQ minCX maxCX (max (bX - 2) minCX), clampQ minCY maxCY (min (y + 1) maxCY))

/-- The retry loop `while (attempts < maxAttempts)` of the fallback planner
(`furniture-tool.ts` lines 1643-1677), rendered with explicit fuel
(`fuel = 10 - attempts` at every call, so the loop guard and the fuel
pattern coincide): stop at the first collision-free position, otherwise
perturb, re-clamp and continue; when the fuel is exhausted the current
position is accepted as is. -/
def collisionRetry (placed : List PlacedRect) (w l minCX maxCX minCY maxCY bX : ℚ) :
    ℕ → ℕ → ℚ → ℚ → ℚ × ℚ
  | 0, _, x, y => (x, y)
  | fuel + 1, attempts, x, y =>
    if hasCollision placed x y w l then
      collisionRetry placed w l minCX maxCX minCY maxCY bX fuel (attempts + 1)
        (retryStep minCX maxCX minCY maxCY bX (attempts + 1) x y).1
        (retryStep minCX maxCX minCY maxCY bX (attempts + 1) x y).2
    else (x, y)

/-- Geometric core of `generateFallbackStrategy` for one furniture item
(`furniture-tool.ts` lines 1629-1686): clamp the raw initial center to the
room (flush walls allowed), then run the 10-attempt collision retry.  The
raw initial position (the room-type placement table of lines 1604-1623) is
supplied by the caller; the claims under verification concern the clamping
and retry stage only. -/
def fallbackPlaceItem (roomW roomL : ℚ) (placed : List PlacedRect) (f : Furniture)
    (initX initY : ℚ) : ℚ × ℚ :=
  collisionRetry placed f.dimW f.dimL (f.dimW / 2) (roomW - f.dimW / 2)
    (f.dimL / 2) (roomL - f.dimL / 2) (clampQ (f.dimW / 2) (roomW - f.dimW / 2) initX)
    10 0
    (clampQ (f.dimW / 2) (roomW - f.dimW / 2) initX)
    (clampQ (f.dimL / 2) (roomL - f.dimL / 2) initY)

/-- The fallback planner's single pass over the furniture list with its
`placedFurniture` accumulator (`furniture-tool.ts` lines 1597 and
1679-1686): every item is recorded as placed, whatever the retry outcome. -/
def fallbackPlacements (roomW roomL : ℚ) :
    List (Furniture × ℚ × ℚ) → List PlacedRect → List PlacedRect
  | [], placed => placed
  | (f, ix, iy) :: rest, placed =>
    fallbackPlacements roomW roomL rest
      (placed ++ [⟨f.id, (fallbackPlaceItem roomW roomL placed f ix iy).1,
        (fallbackPlaceItem roomW roomL placed f ix iy).2, f.dimW, f.dimL⟩])

/-- Modelled from the spec: the retry position sequence as the claim words
it.  Position 0 is the clamped initial position; position k+1 applies the
fixed perturbation of attempt k+1 (+2 ft in X for attempts 1-3, reset X and
+2 ft in Y for attempts 4-6, then original X minus 2 ft and +1 ft in Y) and
re-clamps both coordinates to the room bounds. -/
def specPerturb (bX : ℚ) (a : ℕ) (x y : ℚ) : ℚ × ℚ :=
  if a ≤ 3 then (x + 2, y)
  else if a ≤ 6 then (bX, y + 2)
  else (bX - 2, y + 1)

/-- Modelled from the spec: the sequence of candidate positions described
by the claim, starting from the clamped initial position `(bX, bY)`. -/
def specRetrySeq (minCX maxCX minCY maxCY bX bY : ℚ) : ℕ → ℚ × ℚ
  | 0 => (bX, bY)
  | k + 1 =>
    (clampQ minCX maxCX
      (specPerturb bX (k + 1) (specRetrySeq minCX maxCX minCY maxCY bX bY k).1
        (specRetrySeq minCX maxCX minCY maxCY bX bY k).2).1,
     clampQ minCY maxCY
      (specPerturb bX (k + 1) (specRetrySeq minCX maxCX minCY maxCY bX bY k).1
        (specRetrySeq minCX maxCX minCY maxCY bX bY k).2).2)

/-- Pre-truncating at the upper bound does not change the clamp. -/
theorem clampQ_min_hi (lo hi v : ℚ) : clampQ lo hi (min v hi) = clampQ lo hi v := by
  rw [clampQ, clampQ, min_assoc, min_self]

/-- Pre-truncating at the lower bound does not change the clamp. -/
theorem clampQ_max_lo (lo hi v : ℚ) : clampQ lo hi (max v lo) = clampQ lo hi v := by
  rw [clampQ, clampQ, min_max_distrib_right]
  rw [max_left_comm]
  rw [max_eq_left (min_le_left lo hi)]
  rw [max_comm]

/-- The code's perturbation-and-reclamp step coincides with the spec-worded
retry sequence step. -/
theorem retryStep_eq_spec (minCX maxCX minCY maxCY bX bY : ℚ) (k : ℕ) :
    retryStep minCX maxCX minCY maxCY bX (k + 1)
      (specRetrySeq minCX maxCX minCY maxCY bX bY k).1
      (specRetrySeq minCX maxCX minCY maxCY bX bY k).2 =
    specRetrySeq minCX maxCX minCY maxCY bX bY (k + 1) := by
  show _ = ((clampQ minCX maxCX _, clampQ minCY maxCY _) : ℚ × ℚ)
  rw [retryStep, specPerturb]
  by_cases h1 : k + 1 ≤ 3
  · rw [if_pos h1, if_pos h1]
    rw [clampQ_min_hi]
  · rw [if_neg h1, if_neg h1]
    by_cases h2 : k + 1 ≤ 6
    · rw [if_pos h2, if_pos h2]
      rw [clampQ_min_hi]
    · rw [if_neg h2, if_neg h2]
      rw [clampQ_min_hi, clampQ_max_lo]

/-- Characterization of the retry loop against the spec-worded sequence:
starting at attempt count `attempts` with `10 - attempts` attempts left on
the sequence position `attempts`, the loop stops at the first
collision-free sequence position, after at most 10 attempts, and accepts
position 10 unconditionally. -/
theorem collisionRetry_spec (placed : List PlacedRect)
    (w l minCX maxCX minCY maxCY bX bY : ℚ) :
    ∀ (fuel attempts : ℕ), fuel + attempts = 10 →
      ∃ N, attempts ≤ N ∧ N ≤ 10 ∧
        collisionRetry placed w l minCX maxCX minCY maxCY bX fuel attempts
          (specRetrySeq minCX maxCX minCY maxCY bX bY attempts).1
          (specRetrySeq minCX maxCX minCY maxCY bX bY attempts).2 =
          specRetrySeq minCX maxCX minCY maxCY bX bY N ∧
        (∀ m, attempts ≤ m → m < N →
          hasCollision placed (specRetrySeq minCX maxCX minCY maxCY bX bY m).1
            (specRetrySeq minCX maxCX minCY maxCY bX bY m).2 w l = true) ∧
        (N < 10 →
          hasCollision placed (specRetrySeq minCX maxCX minCY maxCY bX bY N).1
            (specRetrySeq minCX maxCX minCY maxCY bX bY N).2 w l = false) := by
  intro fuel
  induction fuel with
  | zero =>
    intro attempts h
    have h10 : attempts = 10 := by omega
    subst h10
    refine ⟨10, le_refl _, le_refl _, rfl, ?_, ?_⟩
    · intro m hm1 hm2; omega
    · intro h; omega
  | succ fuel ih =>
    intro attempts h
    by_cases hc : hasCollision placed
        (specRetrySeq minCX maxCX minCY maxCY bX bY attempts).1
        (specRetrySeq minCX maxCX minCY maxCY bX bY attempts).2 w l = true
    · obtain ⟨N, h1, h2, h3, h4, h5⟩ := ih (attempts + 1) (by omega)
      refine ⟨N, by omega, h2, ?_, ?_, h5⟩
      · rw [collisionRetry, if_pos hc, retryStep_eq_spec]
        exact h3
      · intro m hm1 hm2
        rcases Nat.eq_or_lt_of_le hm1 with hm | hm
        · rw [← hm]; exact hc
        · exact h4 m hm hm2
    · refine ⟨attempts, le_refl _, by omega, ?_, ?_, ?_⟩
      · rw [collisionRetry, if_neg hc]
      · intro m hm1 hm2; omega
      · intro _
        cases hval : hasCollision placed
            (specRetrySeq minCX maxCX minCY maxCY bX bY attempts).1
            (specRetrySeq minCX maxCX minCY maxCY bX bY attempts).2 w l with
        | true => exact absurd hval hc
        | false => rfl

/-- The fallback planner records every item: the placed list grows by
exactly one rectangle per input item, whatever the retry outcome. -/
theorem fallbackPlacements_length (roomW roomL : ℚ) :
    ∀ (items : List (Furniture × ℚ × ℚ)) (placed : List PlacedRect),
      (fallbackPlacements roomW roomL items placed).length =
        placed.length + items.length := by
  intro items
  induction items with
  | nil => intro placed; rfl
  | cons it rest ih =>
    intro placed
    obtain ⟨f, ix, iy⟩ := it
    rw [fallbackPlacements, ih]
    simp only [List.length_append, List.length_cons, List.length_nil]
    omega

/-- Claim C7 (confirmed): the per-item fallback placement equals the first
collision-free position of the spec-worded retry sequence (clamped start,
+2 ft in X for attempts 1-3, reset X and +2 ft in Y for attempts 4-6, then
original X minus 2 ft and +1 ft in Y, re-clamping after every attempt),
with at most 10 attempts; if every attempt collides, the position after
attempt 10 is accepted; every preceding position collides against the
previously placed items under the 0.25 ft clearance test; and the planner
never drops an item: the placed list always grows by one per item. -/
theorem C7_fallback_retry :
    (∀ (roomW roomL : ℚ) (placed : List PlacedRect) (f : Furniture) (initX initY : ℚ),
      ∃ N, N ≤ 10 ∧
        fallbackPlaceItem roomW roomL placed f initX initY =
          specRetrySeq (f.dimW / 2) (roomW - f.dimW / 2) (f.dimL / 2) (roomL - f.dimL / 2)
            (clampQ (f.dimW / 2) (roomW - f.dimW / 2) initX)
            (clampQ (f.dimL / 2) (roomL - f.dimL / 2) initY) N ∧
        (∀ m, m < N →
          hasCollision placed
            (specRetrySeq (f.dimW / 2) (roomW - f.dimW / 2) (f.dimL / 2) (roomL - f.dimL / 2)
              (clampQ (f.dimW / 2) (roomW - f.dimW / 2) initX)
              (clampQ (f.dimL / 2) (roomL - f.dimL / 2) initY) m).1
            (specRetrySeq (f.dimW / 2) (roomW - f.dimW / 2) (f.dimL / 2) (roomL - f.dimL / 2)
              (clampQ (f.dimW / 2) (roomW - f.dimW / 2) initX)
              (clampQ (f.dimL / 2) (roomL - f.dimL / 2) initY) m).2 f.dimW f.dimL = true) ∧
        (N < 10 →
          hasCollision placed
            (specRetrySeq (f.dimW / 2) (roomW - f.dimW / 2) (f.dimL / 2) (roomL - f.dimL / 2)
              (clampQ (f.dimW / 2) (roomW - f.dimW / 2) initX)
              (clampQ (f.dimL / 2) (roomL - f.dimL / 2) initY) N).1
            (specRetrySeq (f.dimW / 2) (roomW - f.dimW / 2) (f.dimL / 2) (roomL - f.dimL / 2)
              (clampQ (f.dimW / 2) (roomW - f.dimW / 2) initX)
              (clampQ (f.dimL / 2) (roomL - f.dimL / 2) initY) N).2 f.dimW f.dimL = false)) ∧
    (∀ (roomW roomL : ℚ) (items : List (Furniture × ℚ × ℚ)) (placed : List PlacedRect),
      (fallbackPlacements roomW roomL items placed).length = placed.length + items.length) := by
  constructor
  · intro roomW roomL placed f initX initY
    obtain ⟨N, _, h2, h3, h4, h5⟩ := collisionRetry_spec placed f.dimW f.dimL
      (f.dimW / 2) (roomW - f.dimW / 2) (f.dimL / 2) (roomL - f.dimL / 2)
      (clampQ (f.dimW / 2) (roomW - f.dimW / 2) initX)
      (clampQ (f.dimL / 2) (roomL - f.dimL / 2) initY) 10 0 (by omega)
    exact ⟨N, h2, h3, fun m hm => h4 m (Nat.zero_le m) hm, h5⟩
  · exact fun roomW roomL items placed => fallbackPlacements_length roomW roomL items placed

/-- Claim C7 witness: the characterization applied to a concrete chair in a
10 by 12 room with nothing yet placed, plus the growth law on a one-item
run. -/
theorem C7_fallback_retry_witness :
    (∃ N, N ≤ 10 ∧
      fallbackPlaceItem 10 12 [] ⟨"chair-1", "Desk Chair", "chair", 2, 2, 2⟩ 3 3 =
        specRetrySeq ((2 : ℚ) / 2) (10 - (2 : ℚ) / 2) ((2 : ℚ) / 2) (12 - (2 : ℚ) / 2)
          (clampQ ((2 : ℚ) / 2) (10 - (2 : ℚ) / 2) 3)
          (clampQ ((2 : ℚ) / 2) (12 - (2 : ℚ) / 2) 3) N ∧
      (∀ m, m < N →
        hasCollision []
          (specRetrySeq ((2 : ℚ) / 2) (10 - (2 : ℚ) / 2) ((2 : ℚ) / 2) (12 - (2 : ℚ) / 2)
            (clampQ ((2 : ℚ) / 2) (10 - (2 : ℚ) / 2) 3)
            (clampQ ((2 : ℚ) / 2) (12 - (2 : ℚ) / 2) 3) m).1
          (specRetrySeq ((2 : ℚ) / 2) (10 - (2 : ℚ) / 2) ((2 : ℚ) / 2) (12 - (2 : ℚ) / 2)
            (clampQ ((2 : ℚ) / 2) (10 - (2 : ℚ) / 2) 3)
            (clampQ ((2 : ℚ) / 2) (12 - (2 : ℚ) / 2) 3) m).2 2 2 = true) ∧
      (N < 10 →
        hasCollision []
          (specRetrySeq ((2 : ℚ) / 2) (10 - (2 : ℚ) / 2) ((2 : ℚ) / 2) (12 - (2 : ℚ) / 2)
            (clampQ ((2 : ℚ) / 2) (10 - (2 : ℚ) / 2) 3)
            (clampQ ((2 : ℚ) / 2) (12 - (2 : ℚ) / 2) 3) N).1
          (specRetrySeq ((2 : ℚ) / 2) (10 - (2 : ℚ) / 2) ((2 : ℚ) / 2) (12 - (2 : ℚ) / 2)
            (clampQ ((2 : ℚ) / 2) (10 - (2 : ℚ) / 2) 3)
            (clampQ ((2 : ℚ) / 2) (12 - (2 : ℚ) / 2) 3) N).2 2 2 = false)) ∧
    (fallbackPlacements 10 12 [(⟨"chair-1", "Desk Chair", "chair", 2, 2, 2⟩, 3, 3)] []).length =
      ([] : List PlacedRect).length +
        ([(⟨"chair-1", "Desk Chair", "chair", 2, 2, 2⟩, 3, 3)] :
          List (Furniture × ℚ × ℚ)).length :=
  ⟨C7_fallback_retry.1 10 12 [] ⟨"chair-1", "Desk Chair", "chair", 2, 2, 2⟩ 3 3,
   C7_fallback_retry.2 10 12 [(⟨"chair-1", "Desk Chair", "chair", 2, 2, 2⟩, 3, 3)] []⟩

/-- A clamp whose range is inverted (upper bound below lower bound) always
returns the lower bound. -/
theorem clampQ_of_hi_lt_lo {lo hi : ℚ} (h : hi < lo) (v : ℚ) : clampQ lo hi v = lo := by
  rw [clampQ]
  exact max_eq_left (le_of_lt (lt_of_le_of_lt (min_le_right v hi) h))

/-- With an inverted X range every perturbation step keeps X pinned at the
lower bound. -/
theorem retryStep_fst_pinned {minCX maxCX : ℚ} (h : maxCX < minCX)
    (minCY maxCY bX : ℚ) (a : ℕ) (x y : ℚ) :
    (retryStep minCX maxCX minCY maxCY bX a x y).1 = minCX := by
  rw [retryStep]
  by_cases h1 : a ≤ 3
  · rw [if_pos h1]; exact clampQ_of_hi_lt_lo h _
  · rw [if_neg h1]
    by_cases h2 : a ≤ 6
    · rw [if_pos h2]; exact clampQ_of_hi_lt_lo h _
    · rw [if_neg h2]; exact clampQ_of_hi_lt_lo h _

/-- With an inverted X range the whole retry loop keeps X pinned at the
lower bound. -/
theorem collisionRetry_fst_pinned {minCX maxCX : ℚ} (h : maxCX < minCX)
    (placed : List PlacedRect) (w l minCY maxCY bX : ℚ) :
    ∀ (fuel attempts : ℕ) (y : ℚ),
      (collisionRetry placed w l minCX maxCX minCY maxCY bX fuel attempts minCX y).1 =
        minCX := by
  intro fuel
  induction fuel with
  | zero => intro attempts y; rfl
  | succ fuel ih =>
    intro attempts y
    rw [collisionRetry]
    by_cases hc : hasCollision placed minCX y w l = true
    · rw [if_pos hc]
      rw [retryStep_fst_pinned h]
      exact ih (attempts + 1) _
    · rw [if_neg hc]

/-- Claim C8 counterexample: for a 12 ft wide sofa in a 10 ft wide room
(clamp range 6 to 4, inverted) with raw position (2, 2) and nothing placed,
the fallback planner pins the X center to 6 = itemWidth/2, not to the room
midpoint 5 as the claim states. -/
theorem C8_oversized_pin_counterexample :
    fallbackPlaceItem 10 12 [] ⟨"sofa-1", "Giant Sofa", "sofa", 2, 12, 2⟩ 2 2 =
      ((6 : ℚ), (2 : ℚ)) ∧
    ((6 : ℚ), (2 : ℚ)) ≠ ((5 : ℚ), (2 : ℚ)) := by
  constructor
  · norm_num [fallbackPlaceItem, collisionRetry, hasCollision, clampQ, min_def, max_def]
  · intro h
    rw [Prod.mk.injEq] at h
    have h6 : (6 : ℚ) = 5 := h.1
    norm_num at h6

/-- Claim C8 (corrected): an item wider or longer than the room makes the
clamp range inverted (min > max); the planner does not raise an error, but
it pins the item's center on that axis to the lower clamp bound - half the
item's own extent (itemWidth/2), not the room's midpoint - through the
initial clamp and every retry re-clamp, and the remaining items are still
all placed. -/
theorem C8_oversized_pin
    (roomW roomL : ℚ) (placed : List PlacedRect) (f : Furniture)
    (initX initY : ℚ) (h : roomW < f.dimW) :
    (fallbackPlaceItem roomW roomL placed f initX initY).1 = f.dimW / 2 ∧
    (∀ (items : List (Furniture × ℚ × ℚ)) (placed2 : List PlacedRect),
      (fallbackPlacements roomW roomL items placed2).length =
        placed2.length + items.length) := by
  have hlt : roomW - f.dimW / 2 < f.dimW / 2 := by linarith
  constructor
  · have hbx : clampQ (f.dimW / 2) (roomW - f.dimW / 2) initX = f.dimW / 2 :=
      clampQ_of_hi_lt_lo hlt initX
    rw [fallbackPlaceItem, hbx]
    exact collisionRetry_fst_pinned hlt placed f.dimW f.dimL _ _ _ 10 0 _
  · exact fun items placed2 => fallbackPlacements_length roomW roomL items placed2

/-- Claim C8 witness: the amended statement applied to the 12 ft wide sofa
in the 10 ft wide room. -/
theorem C8_oversized_pin_witness :
    (fallbackPlaceItem 10 12 [] ⟨"sofa-1", "Giant Sofa", "sofa", 2, 12, 2⟩ 2 2).1 =
      (12 : ℚ) / 2 ∧
    (∀ (items : List (Furniture × ℚ × ℚ)) (placed2 : List PlacedRect),
      (fallbackPlacements 10 12 items placed2).length =
        placed2.length + items.length) :=
  C8_oversized_pin 10 12 [] ⟨"sofa-1", "Giant Sofa", "sofa", 2, 12, 2⟩ 2 2 (by norm_num)

/-- Construction of one visualization footprint from a placement and its
catalog furniture (`furniture-tool.ts` lines 2442-2461): rotations of 90 or
270 degrees swap length and width, and a zero stored dimension falls back
to 2 (the `|| 2` defaults of lines 2446-2447). -/
def buildVis (p : Placement) (f : Furniture) : VisItem :=
  ⟨p.furnitureId, p.x, p.y,
   if p.rotation = 90 ∨ p.rotation = 270
     then (if f.dimL = 0 then 2 else f.dimL) else (if f.dimW = 0 then 2 else f.dimW),
   if p.rotation = 90 ∨ p.rotation = 270
     then (if f.dimW = 0 then 2 else f.dimW) else (if f.dimL = 0 then 2 else f.dimL),
   p.rotation⟩

/-- Footprint derivation over a whole arrangement (`furniture-tool.ts`
lines 2435-2462): placements whose furniture id does not resolve are
dropped. -/
def arrToVis (sel : List Furniture) (arr : List Placement) : List VisItem :=
  arr.filterMap (fun p => (findFurniture sel p.furnitureId).map (buildVis p))

/-- The post-processing pipeline of the claims: SymmetryEnforcer
(`enforceSymmetricalArrangement`, applied in `arrangeFurniture` at line
956), then footprint derivation and the LayeringEngine
(`assignLayeringOrder`, applied at line 2465). -/
def layoutPipeline (room : RoomDims) (sel : List Furniture) (arr : List Placement) :
    List LayeredItem :=
  assignLayeringOrder (arrToVis sel (enforceSymmetricalArrangement arr sel room))

/-- Reading the finalized output back as a raw placement list, to feed the
pipeline a second time. -/
def layeredToPlacements (out : List LayeredItem) : List Placement :=
  out.map (fun a => ⟨a.item.id, a.item.x, a.item.y, a.item.rotation⟩)

/-- Claim C2 counterexample: three rugs in a 12 by 10 room, where the small
rug overlaps the middle rug, the middle overlaps the large, but the small
and large are disjoint (a partially-overlapping chain).  No item is
symmetry-eligible, so the pipeline is the layering engine alone.  After the
first pass the middle rug has layerOrder 0; re-running the pipeline on the
finalized output re-clusters the reordered list single-hop and gives the
middle rug layerOrder 1, so the second application is not a no-op. -/
theorem C2_pipeline_not_idempotent_counterexample :
    ((layoutPipeline ⟨12, 10⟩
        [⟨"s", "Small Rug", "rug", 2, 7/5, 1⟩, ⟨"m", "Middle Rug", "rug", 2, 2, 1⟩,
         ⟨"l", "Large Rug", "rug", 2, 4, 1⟩]
        [⟨"s", 6, 1, 0⟩, ⟨"m", 9/2, 1, 0⟩, ⟨"l", 2, 1, 0⟩]).find?
      (fun a => decide (a.item.id = "m"))).map LayeredItem.layerOrder = some 0 ∧
    ((layoutPipeline ⟨12, 10⟩
        [⟨"s", "Small Rug", "rug", 2, 7/5, 1⟩, ⟨"m", "Middle Rug", "rug", 2, 2, 1⟩,
         ⟨"l", "Large Rug", "rug", 2, 4, 1⟩]
        (layeredToPlacements (layoutPipeline ⟨12, 10⟩
          [⟨"s", "Small Rug", "rug", 2, 7/5, 1⟩, ⟨"m", "Middle Rug", "rug", 2, 2, 1⟩,
           ⟨"l", "Large Rug", "rug", 2, 4, 1⟩]
          [⟨"s", 6, 1, 0⟩, ⟨"m", 9/2, 1, 0⟩, ⟨"l", 2, 1, 0⟩]))).find?
      (fun a => decide (a.item.id = "m"))).map LayeredItem.layerOrder = some 1 ∧
    some (0 : ℤ) ≠ some (1 : ℤ) := by
  refine ⟨?_, ?_, by norm_num⟩
  · norm_num [layoutPipeline, enforceSymmetricalArrangement, buildGroups, buildGroupsAux,
      findFurniture, isChairSkip, shouldBeSymmetrical, lowerIncludes, lowerStr, includesFrom,
      hasPrefixFrom, lowerChar, arrToVis, buildVis, assignLayeringOrder, layeredBase,
      withLayerInfo, calculateFurnitureArea, layerTable, layerClusters, clustersAux,
      collectOverlapping, overlapAt, detectOverlap, layerAssignments, clusterAssignments,
      clusterItems, rankPairs, layerOf, setLayer, List.insertionSort, List.orderedInsert,
      areaGE, layerLE, List.range_succ, List.find?]
  · norm_num [layoutPipeline, layeredToPlacements, enforceSymmetricalArrangement, buildGroups,
      buildGroupsAux, findFurniture, isChairSkip, shouldBeSymmetrical, lowerIncludes, lowerStr,
      includesFrom, hasPrefixFrom, lowerChar, arrToVis, buildVis, assignLayeringOrder,
      layeredBase, withLayerInfo, calculateFurnitureArea, layerTable, layerClusters, clustersAux,
      collectOverlapping, overlapAt, detectOverlap, layerAssignments, clusterAssignments,
      clusterItems, rankPairs, layerOf, setLayer, List.insertionSort, List.orderedInsert,
      areaGE, layerLE, List.range_succ, List.find?]
    exact ⟨_, rfl, rfl⟩

/-- With no symmetry-eligible furniture the grouping pass produces nothing. -/
theorem buildGroupsAux_nil_of_no_eligible (sel : List Furniture) :
    ∀ (ps : List Placement) (i : ℕ) (gs : List (List Char × List ℕ)),
      (∀ p ∈ ps, ∀ f, findFurniture sel p.furnitureId = some f → symEligible f = false) →
      buildGroupsAux sel ps i gs = gs := by
  intro ps
  induction ps with
  | nil => intro i gs _; rfl
  | cons p rest ih =>
    intro i gs h
    have hrest : ∀ q ∈ rest, ∀ f, findFurniture sel q.furnitureId = some f →
        symEligible f = false :=
      fun q hq => h q (List.mem_cons_of_mem p hq)
    rw [buildGroupsAux]
    cases hf : findFurniture sel p.furnitureId with
    | none => exact ih (i + 1) gs hrest
    | some f =>
      dsimp only
      have hel := h p (List.mem_cons_self p rest) f hf
      by_cases hcs : isChairSkip f = true
      · rw [if_pos hcs]
        exact ih (i + 1) gs hrest
      · rw [if_neg hcs]
        have hsb : shouldBeSymmetrical f = false := by
          cases hval : isChairSkip f with
          | true => exact absurd hval hcs
          | false =>
            rw [symEligible, hval] at hel
            simpa using hel
        rw [hsb]
        rw [if_neg (by norm_num)]
        exact ih (i + 1) gs hrest

/-- With no symmetry-eligible furniture the symmetry pass is the identity. -/
theorem enforce_id_of_no_eligible {sel : List Furniture} {arr : List Placement}
    {room : RoomDims}
    (h : ∀ p ∈ arr, ∀ f, findFurniture sel p.furnitureId = some f → symEligible f = false) :
    enforceSymmetricalArrangement arr sel room = arr := by
  rw [enforceSymmetricalArrangement, buildGroups]
  rw [buildGroupsAux_nil_of_no_eligible sel arr 0 [] h]
  rfl

/-- When no two stored items overlap, every cluster is the singleton of its
seed. -/
theorem clustersAux_singleton (items : List LayeredItem) :
    ∀ (idxs processed : List ℕ),
      List.Sorted (· < ·) idxs →
      (∀ i ∈ idxs, (items.get? i).isSome) →
      (∀ i j : ℕ, i < j → ∀ seed, items.get? i = some seed →
        overlapAt items seed j = false) →
      clustersAux items idxs processed =
        (idxs.filter (fun i => decide (i ∉ processed))).map (fun i => [i]) := by
  intro idxs
  induction idxs with
  | nil => intro processed _ _ _; rfl
  | cons i rest ih =>
    intro processed hsort hsome hno
    have hlt : ∀ j ∈ rest, i < j := fun j hj => (List.pairwise_cons.mp hsort).1 j hj
    have hrest := (List.pairwise_cons.mp hsort).2
    have hsomer : ∀ k ∈ rest, (items.get? k).isSome :=
      fun k hk => hsome k (List.mem_cons_of_mem i hk)
    rw [List.filter_cons]
    by_cases hip : i ∈ processed
    · rw [clustersAux, if_pos hip]
      rw [if_neg (by simpa using hip)]
      exact ih processed hrest hsomer hno
    · obtain ⟨seed, hseed⟩ := Option.isSome_iff_exists.mp (hsome i (List.mem_cons_self i rest))
      rw [clustersAux, if_neg hip, hseed]
      dsimp only
      have hcoll : collectOverlapping items seed processed rest = [] := by
        rw [collectOverlapping, List.filter_eq_nil]
        intro j hj
        rw [Bool.and_eq_true]
        intro hand
        rw [hno i j (hlt j hj) seed hseed] at hand
        exact Bool.false_ne_true hand.2
      rw [hcoll]
      rw [if_pos (by simpa using hip)]
      rw [ih (processed ++ [i]) hrest hsomer hno]
      have hfeq : rest.filter (fun j => decide (j ∉ processed ++ [i])) =
          rest.filter (fun j => decide (j ∉ processed)) := by
        apply List.filter_congr
        intro j hj
        have hji : j ≠ i := Nat.ne_of_gt (hlt j hj)
        by_cases hjp : j ∈ processed
        · simp [hjp]
        · simp [hjp, hji]
      rw [hfeq, List.map_cons]

/-- With singleton clusters every table entry carries layer 0. -/
theorem layerAssignments_zero {items : List LayeredItem} {clusters : List (List ℕ)}
    (h : ∀ c ∈ clusters, ∃ i, c = [i]) :
    ∀ p ∈ layerAssignments items clusters, p.2 = 0 := by
  intro p hp
  rw [layerAssignments] at hp
  obtain ⟨part, hpart, hvp⟩ := List.mem_flatten.mp hp
  obtain ⟨c, hc, hcp⟩ := List.mem_map.mp hpart
  obtain ⟨i, rfl⟩ := h c hc
  rw [← hcp] at hvp
  rw [clusterAssignments, clusterItems] at hvp
  cases hg : items.get? i with
  | none =>
    rw [List.filterMap_cons, hg] at hvp
    cases hvp
  | some a =>
    rw [List.filterMap_cons, hg] at hvp
    simp only [List.filterMap_nil] at hvp
    rcases List.mem_cons.mp hvp with hvp | hvp
    · rw [hvp]; simp
    · cases hvp

/-- A table whose entries all carry 0 always looks up 0. -/
theorem layerOf_zero {assigns : List (ℕ × ℤ)} (h : ∀ p ∈ assigns, p.2 = 0) (i : ℕ) :
    layerOf assigns i = 0 := by
  rw [layerOf]
  cases hf : assigns.find? (fun p => decide (p.1 = i)) with
  | none => rfl
  | some v => exact h v (List.mem_of_find?_eq_some hf)

/-- With pairwise non-overlapping footprints the layering engine is the
annotation pass alone: every cluster is a singleton, every layer is 0, and
the final stable sort leaves the order untouched. -/
theorem assignLayeringOrder_id {l : List VisItem}
    (h : List.Pairwise (fun a b => detectOverlap a b = false) l) :
    assignLayeringOrder l = layeredBase l := by
  have hno : ∀ i j : ℕ, i < j → ∀ seed, (layeredBase l).get? i = some seed →
      overlapAt (layeredBase l) seed j = false := by
    intro i j hij seed hseed
    rw [overlapAt]
    cases hg : (layeredBase l).get? j with
    | none => rfl
    | some o =>
      obtain ⟨hsi, hgi, _, _⟩ := layeredBase_get? hseed
      obtain ⟨hsj, hgj, _, _⟩ := layeredBase_get? hg
      obtain ⟨hilt, hgeti⟩ := List.get?_eq_some.mp hgi
      obtain ⟨hjlt, hgetj⟩ := List.get?_eq_some.mp hgj
      have := List.pairwise_iff_get.mp h ⟨i, hilt⟩ ⟨j, hjlt⟩ hij
      rw [hgeti, hgetj] at this
      exact this
  have hsing : layerClusters l =
      ((List.range (layeredBase l).length).filter
        (fun i => decide (i ∉ ([] : List ℕ)))).map (fun i => [i]) := by
    rw [layerClusters]
    apply clustersAux_singleton (layeredBase l) (List.range (layeredBase l).length) []
      (List.pairwise_lt_range _) ?_ hno
    intro i hi
    rw [List.get?_eq_get (List.mem_range.mp hi)]
    rfl
  have hzero : ∀ p ∈ layerTable l, p.2 = 0 := by
    rw [layerTable, hsing]
    apply layerAssignments_zero
    intro c hc
    obtain ⟨i, _, hci⟩ := List.mem_map.mp hc
    exact ⟨i, hci.symm⟩
  have hmap : (layeredBase l).map
      (fun a => setLayer a (layerOf (layerTable l) a.originalIndex)) = layeredBase l := by
    have := List.map_congr_left (l := layeredBase l)
      (f := fun a => setLayer a (layerOf (layerTable l) a.originalIndex)) (g := fun a => a) ?_
    · rw [this]
      exact List.map_id _
    · intro a ha
      dsimp only
      obtain ⟨_, _, _, hlay⟩ := layeredBase_get? (mem_layeredBase_get? ha)
      rw [layerOf_zero hzero]
      cases a
      simp only [setLayer]
      simp only [LayeredItem.mk.injEq]
      exact ⟨trivial, trivial, trivial, hlay.symm⟩
  have hsorted : List.Sorted layerLE (layeredBase l) := by
    apply List.pairwise_of_forall_mem_list
    intro a ha b hb
    obtain ⟨_, _, _, hla⟩ := layeredBase_get? (mem_layeredBase_get? ha)
    obtain ⟨_, _, _, hlb⟩ := layeredBase_get? (mem_layeredBase_get? hb)
    rw [layerLE, hla, hlb]
  rw [assignLayeringOrder, hmap]
  exact hsorted.insertionSort_eq

/-- Reading the plain annotation back as placements projects each
visualization item to its id, position and rotation. -/
theorem layeredToPlacements_base (vis : List VisItem) :
    layeredToPlacements (layeredBase vis) =
      vis.map (fun v => ⟨v.id, v.x, v.y, v.rotation⟩) := by
  rw [layeredToPlacements, layeredBase]
  rw [show (fun (a : LayeredItem) =>
      (⟨a.item.id, a.item.x, a.item.y, a.item.rotation⟩ : Placement)) =
    (fun (it : VisItem) => (⟨it.id, it.x, it.y, it.rotation⟩ : Placement)) ∘
      (fun (a : LayeredItem) => a.item) from rfl]
  rw [← List.map_map, withLayerInfo_map_item]

/-- Every derived footprint records enough to rebuild itself: its furniture
lookup succeeds and rebuilding from its own projected placement returns it. -/
theorem arrToVis_selfdescribing {sel : List Furniture} {arr : List Placement} :
    ∀ v ∈ arrToVis sel arr, ∃ f, findFurniture sel v.id = some f ∧
      buildVis ⟨v.id, v.x, v.y, v.rotation⟩ f = v := by
  intro v hv
  rw [arrToVis, List.mem_filterMap] at hv
  obtain ⟨p, hp, hpv⟩ := hv
  rw [Option.map_eq_some'] at hpv
  obtain ⟨f, hf, rfl⟩ := hpv
  exact ⟨f, hf, rfl⟩

/-- Rebuilding footprints from their own projected placements is the
identity. -/
theorem arrToVis_rebuild {sel : List Furniture} :
    ∀ vis : List VisItem,
      (∀ v ∈ vis, ∃ f, findFurniture sel v.id = some f ∧
        buildVis ⟨v.id, v.x, v.y, v.rotation⟩ f = v) →
      arrToVis sel (vis.map (fun v => ⟨v.id, v.x, v.y, v.rotation⟩)) = vis := by
  intro vis
  induction vis with
  | nil => intro _; rfl
  | cons v rest ih =>
    intro h
    obtain ⟨f, hf, hbuild⟩ := h v (List.mem_cons_self v rest)
    rw [List.map_cons, arrToVis, List.filterMap_cons]
    show _ = v :: rest
    rw [show (findFurniture sel
        ((⟨v.id, v.x, v.y, v.rotation⟩ : Placement)).furnitureId) =
      findFurniture sel v.id from rfl]
    rw [hf]
    rw [Option.map_some']
    rw [hbuild]
    rw [show List.filterMap
        (fun p => (findFurniture sel p.furnitureId).map (buildVis p))
        (rest.map (fun v => (⟨v.id, v.x, v.y, v.rotation⟩ : Placement))) =
      arrToVis sel (rest.map (fun v => (⟨v.id, v.x, v.y, v.rotation⟩ : Placement))) from rfl]
    rw [ih (fun w hw => h w (List.mem_cons_of_mem v hw))]

/-- Claim C2 (corrected, amended statement): when the arrangement contains
no symmetry-eligible furniture (so the symmetry pass is the identity) and
the derived footprints are pairwise non-overlapping (so every overlap
cluster is a singleton), running SymmetryEnforcer plus LayeringEngine a
second time on the finalized output reproduces the first output exactly -
positions, layer orders and order alike.  Without these restrictions the
fixed point fails: see the counterexample, where single-hop re-clustering
of the reordered output changes layerOrder. -/
theorem C2_pipeline_idempotent_restricted
    (room : RoomDims) (sel : List Furniture) (arr : List Placement)
    (hElig : ∀ p ∈ arr, ∀ f, findFurniture sel p.furnitureId = some f →
      symEligible f = false)
    (hNoOv : List.Pairwise (fun a b => detectOverlap a b = false) (arrToVis sel arr)) :
    layoutPipeline room sel (layeredToPlacements (layoutPipeline room sel arr)) =
      layoutPipeline room sel arr := by
  have hEnf1 : enforceSymmetricalArrangement arr sel room = arr :=
    enforce_id_of_no_eligible hElig
  have hP1 : layoutPipeline room sel arr = layeredBase (arrToVis sel arr) := by
    rw [layoutPipeline, hEnf1]
    exact assignLayeringOrder_id hNoOv
  have hElig2 : ∀ q ∈ (arrToVis sel arr).map
      (fun v => (⟨v.id, v.x, v.y, v.rotation⟩ : Placement)),
      ∀ f, findFurniture sel q.furnitureId = some f → symEligible f = false := by
    intro q hq f hf
    obtain ⟨v, hv, rfl⟩ := List.mem_map.mp hq
    rw [arrToVis, List.mem_filterMap] at hv
    obtain ⟨p, hp, hpv⟩ := hv
    rw [Option.map_eq_some'] at hpv
    obtain ⟨f0, hf0, rfl⟩ := hpv
    exact hElig p hp f hf
  have hEnf2 : enforceSymmetricalArrangement
      ((arrToVis sel arr).map (fun v => (⟨v.id, v.x, v.y, v.rotation⟩ : Placement)))
      sel room = (arrToVis sel arr).map (fun v => ⟨v.id, v.x, v.y, v.rotation⟩) :=
    enforce_id_of_no_eligible hElig2
  have hVis2 : arrToVis sel
      ((arrToVis sel arr).map (fun v => (⟨v.id, v.x, v.y, v.rotation⟩ : Placement))) =
      arrToVis sel arr :=
    arrToVis_rebuild (arrToVis sel arr) arrToVis_selfdescribing
  rw [hP1, layeredToPlacements_base, layoutPipeline, hEnf2, hVis2]
  rw [assignLayeringOrder_id hNoOv]

/-- Claim C2 witness: two disjoint plain items (an armoire and a bench) in
a 12 by 10 room; no symmetry pair forms and nothing overlaps, so a second
run of the pipeline reproduces the first output exactly. -/
theorem C2_pipeline_idempotent_restricted_witness :
    layoutPipeline ⟨12, 10⟩
      [⟨"a", "Armoire", "storage", 2, 2, 2⟩, ⟨"b", "Bench", "seating", 2, 2, 2⟩]
      (layeredToPlacements (layoutPipeline ⟨12, 10⟩
        [⟨"a", "Armoire", "storage", 2, 2, 2⟩, ⟨"b", "Bench", "seating", 2, 2, 2⟩]
        [⟨"a", 2, 2, 0⟩, ⟨"b", 8, 2, 0⟩])) =
    layoutPipeline ⟨12, 10⟩
      [⟨"a", "Armoire", "storage", 2, 2, 2⟩, ⟨"b", "Bench", "seating", 2, 2, 2⟩]
      [⟨"a", 2, 2, 0⟩, ⟨"b", 8, 2, 0⟩] := by
  apply C2_pipeline_idempotent_restricted
  · intro p hp f hf
    rcases List.mem_cons.mp hp with rfl | hp
    · injection hf with hf
      rw [← hf]
      decide
    · rcases List.mem_cons.mp hp with rfl | hp
      · injection hf with hf
        rw [← hf]
        decide
      · cases hp
  · norm_num [arrToVis, buildVis, findFurniture, detectOverlap, List.filterMap,
      List.find?, List.pairwise_cons, show (decide ("a" = "b")) = false from rfl,
      show (decide ("b" = "b")) = true from rfl, show (decide ("a" = "a")) = true from rfl]
